import Mathlib

/-!
Shallow embedding of the docid canonicalization pipeline
(src/docid/document_id.py, src/docid/pipeline.py, src/docid/extractors/base.py)
and proofs checking the specification's claims against it.

Modelling conventions:
* Python `str` values are Lean `String`s; character-level work is done on
  `List Char` with operations that mirror the Python string/regex operations
  used by the source (implemented here so that they are kernel-executable).
* Python `float`/`int` amounts are represented by the decimal literal that
  `str(x)` produces for them (the source immediately converts numeric amounts
  with `Decimal(str(amount))`, so that literal determines the behaviour).
* Python `decimal.Decimal` values are represented as (sign, coefficient,
  exponent) triples; quantization failure (InvalidOperation, raised when the
  result coefficient would exceed the default 28-digit context precision)
  is modelled with `Option`.
* Python exceptions escaping a function are modelled by `Option` results.
* Python `float` confidences are modelled as exact rationals.
-/

namespace Docid

/-! ## Python character and string primitives -/

/-- Lower/upper pairs used by `str.upper` and `str.lower` for the character
repertoire occurring in this code base (ASCII letters and Polish letters). -/
def lowerUpperPairs : List (Char × Char) :=
  [('a','A'), ('b','B'), ('c','C'), ('d','D'), ('e','E'), ('f','F'), ('g','G'),
   ('h','H'), ('i','I'), ('j','J'), ('k','K'), ('l','L'), ('m','M'), ('n','N'),
   ('o','O'), ('p','P'), ('q','Q'), ('r','R'), ('s','S'), ('t','T'), ('u','U'),
   ('v','V'), ('w','W'), ('x','X'), ('y','Y'), ('z','Z'),
   ('ł','Ł'), ('ż','Ż'), ('ą','Ą'), ('ś','Ś'), ('ę','Ę'), ('ó','Ó'),
   ('ź','Ź'), ('ć','Ć'), ('ń','Ń')]

/-- One character of Python `str.upper()`. -/
def pyUpperChar (c : Char) : Char :=
  match lowerUpperPairs.find? (·.1 == c) with
  | some p => p.2
  | none => c

/-- One character of Python `str.lower()`. -/
def pyLowerChar (c : Char) : Char :=
  match lowerUpperPairs.find? (·.2 == c) with
  | some p => p.1
  | none => c

/-- Python regex `\s` / `str.isspace` on the whitespace characters relevant
here (ASCII whitespace, NEL, NBSP and the common Unicode spaces). -/
def pyIsSpace (c : Char) : Bool :=
  c.toNat ∈ [9, 10, 11, 12, 13, 28, 29, 30, 31, 32, 133, 160, 5760,
    8192, 8193, 8194, 8195, 8196, 8197, 8198, 8199, 8200, 8201, 8202,
    8232, 8233, 8239, 8287, 12288]

/-- ASCII decimal digit (regex `\d` on the inputs in scope). -/
def isDigitC (c : Char) : Bool := 48 ≤ c.toNat && c.toNat ≤ 57

/-- ASCII uppercase letter (regex class `[A-Z]`). -/
def isUpperAZ (c : Char) : Bool := 65 ≤ c.toNat && c.toNat ≤ 90

/-- Python `str.upper()`. -/
def pyUpper (l : List Char) : List Char := l.map pyUpperChar

/-- Python `str.lower()`. -/
def pyLower (l : List Char) : List Char := l.map pyLowerChar

/-- Python `str.strip()` (no argument form). -/
def pyStrip (l : List Char) : List Char :=
  ((l.dropWhile pyIsSpace).reverse.dropWhile pyIsSpace).reverse

/-- Python `str.split(sep)` for a one-character separator: keeps empty pieces,
`"".split(sep) == [""]`. -/
def pySplitChar (sep : Char) : List Char → List (List Char)
  | [] => [[]]
  | c :: rest =>
    if c = sep then [] :: pySplitChar sep rest
    else
      match pySplitChar sep rest with
      | h :: t => (c :: h) :: t
      | [] => [[c]]

/-- Python substring test `needle in hay`. -/
def containsSub (needle : List Char) : List Char → Bool
  | [] => needle.isEmpty
  | c :: rest => needle.isPrefixOf (c :: rest) || containsSub needle rest

/-- Auxiliary state machine for `digitRuns`. -/
def digitRunsAux : List Char → List Char → List (List Char)
  | [], cur => if cur.isEmpty then [] else [cur.reverse]
  | c :: rest, cur =>
    if isDigitC c then digitRunsAux rest (c :: cur)
    else if cur.isEmpty then digitRunsAux rest []
    else cur.reverse :: digitRunsAux rest []

/-- Python `re.findall(r'\d+', s)`: the maximal runs of decimal digits. -/
def digitRuns (l : List Char) : List (List Char) := digitRunsAux l []

/-- Decimal digit character for a digit value below ten. -/
def digitChar10 (d : Nat) : Char :=
  match d with
  | 0 => '0' | 1 => '1' | 2 => '2' | 3 => '3' | 4 => '4'
  | 5 => '5' | 6 => '6' | 7 => '7' | 8 => '8' | 9 => '9'
  | _ => '0'

/-- Little-endian decimal digits of a natural number, with explicit fuel. -/
def natDigitsRevAux : Nat → Nat → List Nat
  | 0, _ => []
  | f + 1, n => if n = 0 then [] else n % 10 :: natDigitsRevAux f (n / 10)

/-- The decimal representation of a natural number, as Python `str` prints it. -/
def natToChars (n : Nat) : List Char :=
  if n = 0 then ['0'] else ((natDigitsRevAux n n).reverse).map digitChar10

/-- Numeric value of a big-endian list of decimal digit characters. -/
def charsVal (l : List Char) : Nat := l.foldl (fun a c => 10 * a + (c.toNat - 48)) 0

/-- Python `str.zfill(2)` for a run of digits. -/
def zfill2 (l : List Char) : List Char :=
  match l with
  | [] => ['0', '0']
  | [c] => ['0', c]
  | l => l

/-- Two-digit rendering of a value below one hundred. -/
def pad2 (n : Nat) : List Char := [digitChar10 (n / 10 % 10), digitChar10 (n % 10)]

/-! ## SHA-256 (hashlib.sha256), executable for the kernel -/

/-- 32-bit truncation. -/
def w32 (n : Nat) : Nat := n % 4294967296

/-- Rotate a 32-bit word right by `n` bits. -/
def rotr (x n : Nat) : Nat :=
  w32 (Nat.lor (Nat.shiftRight x n) (Nat.shiftLeft x (32 - n)))

/-- Logical shift right. -/
def shr (x n : Nat) : Nat := Nat.shiftRight x n

/-- Bitwise complement on 32 bits. -/
def bnot32 (a : Nat) : Nat := 4294967295 - a

/-- The SHA-256 round constants. -/
def sha256K : List Nat :=
  [1116352408, 1899447441, 3049323471, 3921009573, 961987163, 1508970993,
   2453635748, 2870763221, 3624381080, 310598401, 607225278, 1426881987,
   1925078388, 2162078206, 2614888103, 3248222580, 3835390401, 4022224774,
   264347078, 604807628, 770255983, 1249150122, 1555081692, 1996064986,
   2554220882, 2821834349, 2952996808, 3210313671, 3336571891, 3584528711,
   113926993, 338241895, 666307205, 773529912, 1294757372, 1396182291,
   1695183700, 1986661051, 2177026350, 2456956037, 2730485921, 2820302411,
   3259730800, 3345764771, 3516065817, 3600352804, 4094571909, 275423344,
   430227734, 506948616, 659060556, 883997877, 958139571, 1322822218,
   1537002063, 1747873779, 1955562222, 2024104815, 2227730452, 2361852424,
   2428436474, 2756734187, 3204031479, 3329325298]

/-- The eight SHA-256 state words. -/
structure Hash8 where
  a : Nat
  b : Nat
  c : Nat
  d : Nat
  e : Nat
  f : Nat
  g : Nat
  h : Nat

/-- The SHA-256 initial state. -/
def sha256H0 : Hash8 :=
  ⟨1779033703, 3144134277, 1013904242, 2773480762, 1359893119, 2600822924, 528734635, 1541459225⟩

/-- SHA-256 message padding: append `0x80`, zeros, and the 64-bit big-endian
bit length, reaching a multiple of 64 bytes. -/
def sha256Pad (msg : List Nat) : List Nat :=
  let len := msg.length
  let bitLen := len * 8
  let padZeros := (55 + 64 - len % 64) % 64
  msg ++ [0x80] ++ List.replicate padZeros 0 ++
    [bitLen / 72057594037927936 % 256, bitLen / 281474976710656 % 256,
     bitLen / 1099511627776 % 256, bitLen / 4294967296 % 256,
     bitLen / 16777216 % 256, bitLen / 65536 % 256,
     bitLen / 256 % 256, bitLen % 256]

/-- Split bytes into 32-bit big-endian words. -/
def bytesToWords : List Nat → List Nat
  | a :: b :: c :: d :: rest => (a * 16777216 + b * 65536 + c * 256 + d) :: bytesToWords rest
  | _ => []

/-- Message-schedule extension: extend the 16 block words to 64. -/
def sha256Extend (w : Array Nat) (i : Nat) : Nat → Array Nat
  | 0 => w
  | fuel + 1 =>
    let w15 := w.getD (i - 15) 0
    let w2 := w.getD (i - 2) 0
    let s0 := Nat.xor (Nat.xor (rotr w15 7) (rotr w15 18)) (shr w15 3)
    let s1 := Nat.xor (Nat.xor (rotr w2 17) (rotr w2 19)) (shr w2 10)
    let nw := w32 (w.getD (i - 16) 0 + s0 + w.getD (i - 7) 0 + s1)
    sha256Extend (w.push nw) (i + 1) fuel

/-- One round of the SHA-256 compression loop. -/
def sha256Round (w : Array Nat) (i : Nat) (s : Hash8) : Hash8 :=
  let s1 := Nat.xor (Nat.xor (rotr s.e 6) (rotr s.e 11)) (rotr s.e 25)
  let ch := Nat.xor (Nat.land s.e s.f) (Nat.land (bnot32 s.e) s.g)
  let t1 := w32 (s.h + s1 + ch + sha256K.getD i 0 + w.getD i 0)
  let s0 := Nat.xor (Nat.xor (rotr s.a 2) (rotr s.a 13)) (rotr s.a 22)
  let mj := Nat.xor (Nat.xor (Nat.land s.a s.b) (Nat.land s.a s.c)) (Nat.land s.b s.c)
  let t2 := w32 (s0 + mj)
  ⟨w32 (t1 + t2), s.a, s.b, s.c, w32 (s.d + t1), s.e, s.f, s.g⟩

/-- The 64 compression rounds, driven by fuel. -/
def sha256Rounds (w : Array Nat) (i : Nat) (s : Hash8) : Nat → Hash8
  | 0 => s
  | fuel + 1 => sha256Rounds w (i + 1) (sha256Round w i s) fuel

/-- Compress one 64-byte block into the running state. -/
def sha256Compress (w : Array Nat) (s : Hash8) : Hash8 :=
  let t := sha256Rounds w 0 s 64
  ⟨w32 (s.a + t.a), w32 (s.b + t.b), w32 (s.c + t.c), w32 (s.d + t.d),
   w32 (s.e + t.e), w32 (s.f + t.f), w32 (s.g + t.g), w32 (s.h + t.h)⟩

/-- Process the padded byte stream block by block (fuel is the block count). -/
def sha256Blocks : Nat → Hash8 → List Nat → Hash8
  | 0, s, _ => s
  | fuel + 1, s, bytes =>
    let w := sha256Extend (List.toArray (bytesToWords (bytes.take 64))) 16 48
    sha256Blocks fuel (sha256Compress w s) (bytes.drop 64)

/-- Big-endian bytes of one 32-bit word. -/
def wordBytes (n : Nat) : List Nat :=
  [n / 16777216 % 256, n / 65536 % 256, n / 256 % 256, n % 256]

/-- SHA-256 digest of a byte list, as the list of its 32 bytes. -/
def sha256 (msg : List Nat) : List Nat :=
  let padded := sha256Pad msg
  let s := sha256Blocks (padded.length / 64) sha256H0 padded
  wordBytes s.a ++ wordBytes s.b ++ wordBytes s.c ++ wordBytes s.d ++
  wordBytes s.e ++ wordBytes s.f ++ wordBytes s.g ++ wordBytes s.h

/-- Lowercase hex digit. -/
def hexDigitLower (n : Nat) : Char :=
  match n with
  | 0 => '0' | 1 => '1' | 2 => '2' | 3 => '3' | 4 => '4' | 5 => '5' | 6 => '6' | 7 => '7'
  | 8 => '8' | 9 => '9' | 10 => 'a' | 11 => 'b' | 12 => 'c' | 13 => 'd' | 14 => 'e'
  | _ => 'f'

/-- Lowercase hex rendering of a byte list (Python `hexdigest`). -/
def bytesToHex (bs : List Nat) : List Char :=
  bs.flatMap fun b => [hexDigitLower (b / 16), hexDigitLower (b % 16)]

/-- UTF-8 encoding of one scalar value. -/
def charUtf8 (c : Char) : List Nat :=
  let n := c.toNat
  if n < 128 then [n]
  else if n < 2048 then [192 + n / 64, 128 + n % 64]
  else if n < 65536 then [224 + n / 4096, 128 + n / 64 % 64, 128 + n % 64]
  else [240 + n / 262144, 128 + n / 4096 % 64, 128 + n / 64 % 64, 128 + n % 64]

/-- Python `s.encode('utf-8')` as a byte list. -/
def strUtf8 (s : String) : List Nat := s.data.flatMap charUtf8

/-- Python `hashlib.sha256(s.encode('utf-8')).hexdigest()`, as characters. -/
def sha256HexChars (s : String) : List Char := bytesToHex (sha256 (strUtf8 s))

/-- Python `hashlib.sha256(s.encode('utf-8')).hexdigest()`. -/
def sha256HexLower (s : String) : String := String.mk (sha256HexChars s)

/-- The identifier hash: `hashlib.sha256(...).digest().hex()[:16].upper()`. -/
def hash16 (s : String) : String := String.mk (((sha256HexChars s).take 16).map pyUpperChar)

/-! ## NIPValidator (document_id.py lines 50-84) -/

namespace NIPValidator

/-- Source `NIPValidator.normalize`: uppercase, drop a leading `[A-Z]{2}`
country code, then delete whitespace, hyphens and dots. -/
def normalize (nip : String) : String :=
  if nip = "" then ""
  else
    let u := pyUpper nip.data
    let c :=
      match u with
      | a :: b :: rest => if isUpperAZ a && isUpperAZ b then rest else u
      | _ => u
    String.mk (c.filter fun ch => !(pyIsSpace ch || ch == '-' || ch == '.'))

end NIPValidator

/-! ## AmountNormalizer (document_id.py lines 87-122) -/

/-- An amount argument: Python `int`/`float` values are represented by the
decimal literal `str(x)` prints for them (the source code routes them through
`Decimal(str(amount))`), all other values by the string the source parses. -/
inductive AmountValue where
  | numLit (s : String)
  | strVal (s : String)

namespace AmountNormalizer

/-- Underscore handling of Python numeric-string parsing: underscores are
allowed only between two digits and are removed. -/
def stripUnderscoresAux : Option Char → List Char → Option (List Char)
  | _, [] => some []
  | prev, c :: rest =>
    if c = '_' then
      match prev, rest with
      | some p, n :: _ =>
        if isDigitC p && isDigitC n then stripUnderscoresAux prev rest else none
      | _, _ => none
    else (stripUnderscoresAux (some c) rest).map (c :: ·)

/-- Optional leading sign of a `Decimal` literal: the rest of the input and
whether the value is negated. -/
def parseSign (l : List Char) : Bool × List Char :=
  match l with
  | c :: r => if c = '-' then (true, r) else if c = '+' then (false, r) else (false, l)
  | [] => (false, l)

/-- Exponent tail of a `Decimal` literal: optional sign, then digits only. -/
def parseExpTail (l : List Char) : Option Int :=
  let (esign, r) := parseSign l
  let ds := r.takeWhile isDigitC
  if ds.isEmpty || !(r.dropWhile isDigitC).isEmpty then none
  else some ((if esign then -1 else 1) * (charsVal ds : Int))

/-- Core of the `decimal.Decimal(str)` constructor grammar for finite values:
optional sign, digits with an optional point, optional exponent; at least one
digit must be present.  The result is (negative, coefficient, exponent).
Non-finite forms (`Infinity`, `NaN`) are folded into `none` together with
parse failures: the source either catches the resulting exception or would
propagate it, and both points are modelled through `Option`. -/
def parseDecimalCore (l : List Char) : Option (Bool × Nat × Int) :=
  let (neg, r1) := parseSign l
  let ints := r1.takeWhile isDigitC
  let r2 := r1.dropWhile isDigitC
  match r2 with
  | '.' :: r3 =>
    let fracs := r3.takeWhile isDigitC
    let r4 := r3.dropWhile isDigitC
    if ints.isEmpty && fracs.isEmpty then none
    else
      match r4 with
      | [] => some (neg, charsVal (ints ++ fracs), -(fracs.length : Int))
      | 'E' :: r5 =>
        (parseExpTail r5).map fun ex => (neg, charsVal (ints ++ fracs), ex - fracs.length)
      | 'e' :: r5 =>
        (parseExpTail r5).map fun ex => (neg, charsVal (ints ++ fracs), ex - fracs.length)
      | _ => none
  | [] => if ints.isEmpty then none else some (neg, charsVal ints, 0)
  | 'E' :: r5 =>
    if ints.isEmpty then none else (parseExpTail r5).map fun ex => (neg, charsVal ints, ex)
  | 'e' :: r5 =>
    if ints.isEmpty then none else (parseExpTail r5).map fun ex => (neg, charsVal ints, ex)
  | _ => none

/-- Parse a `Decimal` literal. -/
def parseDecimal (l : List Char) : Option (Bool × Nat × Int) :=
  (stripUnderscoresAux none l).bind parseDecimalCore

/-- Source `Decimal.quantize(Decimal('0.01'), rounding=ROUND_HALF_UP)` on a
finite value: the resulting coefficient counts hundredths, ties rounded away
from zero; `none` models the `InvalidOperation` raised when the result needs
more than the default context's 28 digits. -/
def quantizeHalfUp2? (neg : Bool) (c : Nat) (e : Int) : Option (Bool × Nat) :=
  let cents :=
    if 0 ≤ e + 2 then c * 10 ^ (e + 2).toNat
    else (2 * c + 10 ^ (-(e + 2)).toNat) / (2 * 10 ^ (-(e + 2)).toNat)
  if cents < 10 ^ 28 then some (neg, cents) else none

/-- Python `str` of a quantized (exponent -2) `Decimal`. -/
def renderQuant (neg : Bool) (cents : Nat) : List Char :=
  (if neg then ['-'] else []) ++ natToChars (cents / 100) ++ '.' :: pad2 (cents % 100)

/-- Character class `[ZŁPLN\s]` removed by the source's currency cleanup. -/
def isCurrencyChar (c : Char) : Bool :=
  c == 'Z' || c == 'Ł' || c == 'P' || c == 'L' || c == 'N' || pyIsSpace c

/-- Python `cleaned.rsplit('.', 1)` when a dot is present: the part before the
last dot and the part after it. -/
def rsplitDot (l : List Char) : Option (List Char × List Char) :=
  match l.reverse.dropWhile (fun c => !(c == '.')) with
  | '.' :: intRev => some (intRev.reverse, (l.reverse.takeWhile fun c => !(c == '.')).reverse)
  | _ => none

/-- String cleanup of `AmountNormalizer.normalize` (lines 104-116): uppercase,
remove `[ZŁPLN\s]`, commas to dots, split at the last dot and delete dots and
whitespace from the integer part. -/
def cleanString (s : String) : List Char :=
  let u := pyUpper s.data
  let c1 := u.filter fun c => !isCurrencyChar c
  let c2 := c1.map fun c => if c == ',' then '.' else c
  match rsplitDot c2 with
  | some (ip, fp) => (ip.filter fun c => !(c == '.' || pyIsSpace c)) ++ '.' :: fp
  | none => c2.filter fun c => !(c == '.' || pyIsSpace c)

/-- String branch of `AmountNormalizer.normalize` (total: every exception of
the parse/quantize step is caught and mapped to `"0.00"`). -/
def normalizeStr (s : String) : String :=
  match (parseDecimal (cleanString s)).bind fun p => quantizeHalfUp2? p.1 p.2.1 p.2.2 with
  | some q => String.mk (renderQuant q.1 q.2)
  | none => "0.00"

/-- Source `AmountNormalizer.normalize`.  The numeric branch
`f"{Decimal(str(amount)).quantize(Decimal('0.01'), rounding=ROUND_HALF_UP)}"`
has no exception handler, so its failure is surfaced as `none`. -/
def normalize? : AmountValue → Option String
  | .numLit s =>
    ((parseDecimal s.data).bind fun p => quantizeHalfUp2? p.1 p.2.1 p.2.2).map
      fun q => String.mk (renderQuant q.1 q.2)
  | .strVal s => some (normalizeStr s)

/-- Modelled from the spec: quantization with banker's rounding (round half to
even), which §4.1 of the spec claims the numeric branch uses.  Defined only to
compare the spec's words with the code's `ROUND_HALF_UP`. -/
def quantizeHalfEven2? (neg : Bool) (c : Nat) (e : Int) : Option (Bool × Nat) :=
  let cents :=
    if 0 ≤ e + 2 then c * 10 ^ (e + 2).toNat
    else
      let d := 10 ^ (-(e + 2)).toNat
      let q := c / d
      let r := c % d
      if 2 * r < d then q
      else if d < 2 * r then q + 1
      else if q % 2 = 0 then q else q + 1
  if cents < 10 ^ 28 then some (neg, cents) else none

/-- Modelled from the spec: the numeric branch as the spec words it, with
banker's rounding instead of the code's half-up rounding. -/
def normalizeSpecHalfEven? : AmountValue → Option String
  | .numLit s =>
    ((parseDecimal s.data).bind fun p => quantizeHalfEven2? p.1 p.2.1 p.2.2).map
      fun q => String.mk (renderQuant q.1 q.2)
  | .strVal s => some (normalizeStr s)

end AmountNormalizer

/-! ## DateNormalizer (document_id.py lines 125-171)

The seven `datetime.strptime` formats are embedded as the backtracking
matchers CPython's `_strptime` compiles them to: `%d` is
`3[01]|[12]\d|0[1-9]|[1-9]`, `%m` is `1[0-2]|0[1-9]|[1-9]`, `%Y` is `\d{4}`,
a space matches `\s+`, the whole string must be consumed, and a regex match
with an invalid calendar date raises `ValueError`, falling through to the
next format. -/

namespace DateNormalizer

/-- Matcher for `%d`, alternatives in regex priority order. -/
def matchDay (l : List Char) : List (Nat × List Char) :=
  (match l with
   | '3' :: c :: r => if c = '0' || c = '1' then [(c.toNat - 18, r)] else []
   | _ => []) ++
  (match l with
   | a :: b :: r =>
     if (a = '1' || a = '2') && isDigitC b then [((a.toNat - 48) * 10 + (b.toNat - 48), r)]
     else []
   | _ => []) ++
  (match l with
   | '0' :: b :: r => if 49 ≤ b.toNat && b.toNat ≤ 57 then [(b.toNat - 48, r)] else []
   | _ => []) ++
  (match l with
   | a :: r => if 49 ≤ a.toNat && a.toNat ≤ 57 then [(a.toNat - 48, r)] else []
   | _ => [])

/-- Matcher for `%m`, alternatives in regex priority order. -/
def matchMonth (l : List Char) : List (Nat × List Char) :=
  (match l with
   | '1' :: b :: r => if b = '0' || b = '1' || b = '2' then [(10 + (b.toNat - 48), r)] else []
   | _ => []) ++
  (match l with
   | '0' :: b :: r => if 49 ≤ b.toNat && b.toNat ≤ 57 then [(b.toNat - 48, r)] else []
   | _ => []) ++
  (match l with
   | a :: r => if 49 ≤ a.toNat && a.toNat ≤ 57 then [(a.toNat - 48, r)] else []
   | _ => [])

/-- Matcher for `%Y`: exactly four digits. -/
def matchYear4 (l : List Char) : List (Nat × List Char) :=
  match l with
  | a :: b :: c :: d :: r =>
    if isDigitC a && isDigitC b && isDigitC c && isDigitC d then
      [((a.toNat - 48) * 1000 + (b.toNat - 48) * 100 + (c.toNat - 48) * 10 + (d.toNat - 48), r)]
    else []
  | _ => []

/-- Matcher for a literal separator character. -/
def matchLit (sep : Char) (l : List Char) : List (List Char) :=
  match l with
  | c :: r => if c = sep then [r] else []
  | [] => []

/-- Matcher for `\s+` (what a space in a strptime format compiles to), greedy
with backtracking. -/
def matchWs (l : List Char) : List (List Char) :=
  let k := (l.takeWhile pyIsSpace).length
  (List.range k).map fun i => l.drop (k - i)

/-- Backtracking run of a three-component format with two separators; returns
the first full match in regex priority order, as (first, second, third). -/
def runFmt3 (p1 : List Char → List (Nat × List Char)) (s1 : List Char → List (List Char))
    (p2 : List Char → List (Nat × List Char)) (s2 : List Char → List (List Char))
    (p3 : List Char → List (Nat × List Char)) (l : List Char) : Option (Nat × Nat × Nat) :=
  ((p1 l).flatMap fun v1 => (s1 v1.2).flatMap fun r2 => (p2 r2).flatMap fun v2 =>
    (s2 v2.2).flatMap fun r4 => (p3 r4).filterMap fun v3 =>
      if v3.2.isEmpty then some (v1.1, v2.1, v3.1) else none).head?

/-- Whether the Gregorian year is a leap year. -/
def isLeap (y : Nat) : Bool := (y % 4 = 0 && y % 100 ≠ 0) || y % 400 = 0

/-- Day count of a month. -/
def daysInMonth (y m : Nat) : Nat :=
  if m = 2 then (if isLeap y then 29 else 28)
  else if m = 4 || m = 6 || m = 9 || m = 11 then 30
  else 31

/-- Whether `datetime(y, m, d)` constructs without raising `ValueError` (the
month is already constrained to 1..12 by the `%m` matcher). -/
def validDate (y m d : Nat) : Bool := 1 ≤ y && y ≤ 9999 && 1 ≤ d && d ≤ daysInMonth y m

/-- Format `%Y-%m-%d` as (y, m, d). -/
def fmtYmdDash (l : List Char) : Option (Nat × Nat × Nat) :=
  runFmt3 matchYear4 (matchLit '-') matchMonth (matchLit '-') matchDay l

/-- Format `%d-%m-%Y` as (y, m, d). -/
def fmtDmyDash (l : List Char) : Option (Nat × Nat × Nat) :=
  (runFmt3 matchDay (matchLit '-') matchMonth (matchLit '-') matchYear4 l).map
    fun t => (t.2.2, t.2.1, t.1)

/-- Format `%d.%m.%Y` as (y, m, d). -/
def fmtDmyDot (l : List Char) : Option (Nat × Nat × Nat) :=
  (runFmt3 matchDay (matchLit '.') matchMonth (matchLit '.') matchYear4 l).map
    fun t => (t.2.2, t.2.1, t.1)

/-- Format `%d/%m/%Y` as (y, m, d). -/
def fmtDmySlash (l : List Char) : Option (Nat × Nat × Nat) :=
  (runFmt3 matchDay (matchLit '/') matchMonth (matchLit '/') matchYear4 l).map
    fun t => (t.2.2, t.2.1, t.1)

/-- Format `%Y/%m/%d` as (y, m, d). -/
def fmtYmdSlash (l : List Char) : Option (Nat × Nat × Nat) :=
  runFmt3 matchYear4 (matchLit '/') matchMonth (matchLit '/') matchDay l

/-- Format `%d %m %Y` as (y, m, d). -/
def fmtDmySpace (l : List Char) : Option (Nat × Nat × Nat) :=
  (runFmt3 matchDay matchWs matchMonth matchWs matchYear4 l).map
    fun t => (t.2.2, t.2.1, t.1)

/-- Format `%Y%m%d` as (y, m, d). -/
def fmtYmdCompact (l : List Char) : Option (Nat × Nat × Nat) :=
  runFmt3 matchYear4 (fun r => [r]) matchMonth (fun r => [r]) matchDay l

/-- The format list of `DateNormalizer.FORMATS`, tried in order; a format
whose regex matches but whose date is invalid raises `ValueError`, which the
source catches and skips. -/
def tryFormats (l : List Char) : Option (Nat × Nat × Nat) :=
  [fmtYmdDash, fmtDmyDash, fmtDmyDot, fmtDmySlash, fmtYmdSlash, fmtDmySpace,
    fmtYmdCompact].findSome?
    fun f => (f l).bind fun t => if validDate t.1 t.2.1 t.2.2 then some t else none

/-- Python `datetime.strftime('%Y-%m-%d')` on Linux/glibc: the year prints
unpadded, month and day print zero-padded to two digits. -/
def strftimeYmd (y m d : Nat) : List Char :=
  natToChars y ++ '-' :: pad2 m ++ '-' :: pad2 d

/-- Source `DateNormalizer.normalize` on a string argument (the temporal-object
branches of the source are not reachable from the claims, which all pass
strings). -/
def normalize (s : String) : String :=
  let cleaned := pyStrip s.data
  match tryFormats cleaned with
  | some t => String.mk (strftimeYmd t.1 t.2.1 t.2.2)
  | none =>
    let ds := digitRuns cleaned
    if 3 ≤ ds.length then
      let g0 := ds.getD 0 []
      let g1 := ds.getD 1 []
      let g2 := ds.getD 2 []
      if g0.length = 4 then String.mk (g0 ++ '-' :: zfill2 g1 ++ '-' :: zfill2 g2)
      else if g2.length = 4 then String.mk (g2 ++ '-' :: zfill2 g1 ++ '-' :: zfill2 g0)
      else String.mk cleaned
    else String.mk cleaned

end DateNormalizer

/-! ## InvoiceNumberNormalizer (document_id.py lines 174-199) -/

namespace InvoiceNumberNormalizer

/-- Separator class `[\s\-_]` of the first substitution. -/
def isSepChar (c : Char) : Bool := pyIsSpace c || c == '-' || c == '_'

/-- Python `re.sub(r'[\s\-_]+', '/', s)`: the flag tracks whether the previous
character belonged to a separator run. -/
def subSepRuns : List Char → Bool → List Char
  | [], _ => []
  | c :: rest, inRun =>
    if isSepChar c then
      if inRun then subSepRuns rest true else '/' :: subSepRuns rest true
    else c :: subSepRuns rest false

/-- Python `re.sub(r'/+', '/', s)`. -/
def subSlashRuns : List Char → Bool → List Char
  | [], _ => []
  | c :: rest, inRun =>
    if c = '/' then
      if inRun then subSlashRuns rest true else '/' :: subSlashRuns rest true
    else c :: subSlashRuns rest false

/-- Python `str.strip('/')`. -/
def stripSlashes (l : List Char) : List Char :=
  ((l.dropWhile (· == '/')).reverse.dropWhile (· == '/')).reverse

/-- Source `InvoiceNumberNormalizer.normalize`. -/
def normalize (number : String) : String :=
  if number = "" then ""
  else
    let u := pyStrip (pyUpper number.data)
    String.mk (stripSlashes (subSlashRuns (subSepRuns u false) false))

end InvoiceNumberNormalizer

/-! ## DocumentType and the identifier generator (document_id.py lines 21-37, 202-675) -/

/-- Source `DocumentType`. -/
inductive DocumentType where
  | INVOICE | RECEIPT | CONTRACT | BANK_STATEMENT | CORRECTION | PROFORMA
  | ADVANCE | BILL | CASH_IN | CASH_OUT | DEBIT_NOTE | DELIVERY_NOTE
  | RECEIPT_NOTE | EXPENSE_REPORT | OTHER
deriving DecidableEq

/-- The enum value (short code) of each document type. -/
def DocumentType.code : DocumentType → String
  | .INVOICE => "FV" | .RECEIPT => "PAR" | .CONTRACT => "UMO"
  | .BANK_STATEMENT => "WB" | .CORRECTION => "KOR" | .PROFORMA => "PRO"
  | .ADVANCE => "ZAL" | .BILL => "RAC" | .CASH_IN => "KP" | .CASH_OUT => "KW"
  | .DEBIT_NOTE => "NK" | .DELIVERY_NOTE => "WZ" | .RECEIPT_NOTE => "PZ"
  | .EXPENSE_REPORT => "DEL" | .OTHER => "DOC"

/-- Python `"|".join(parts)`, kernel-executable. -/
def pyJoin (sep : String) (parts : List String) : String :=
  String.mk (List.intercalate sep.data (parts.map String.data))

/-- Python truthiness of an `Optional[str]`: present and non-empty. -/
def truthy : Option String → Bool
  | some s => !(s == "")
  | none => false

/-- Python `x or ""` on an `Optional[str]`. -/
def orEmpty (o : Option String) : String := o.getD ""

/-- Python `x or "0"` on an `Optional[str]` (an empty string is falsy). -/
def orZero (o : Option String) : String :=
  match o with
  | some s => if s = "" then "0" else s
  | none => "0"

/-- Python `s.strip().upper()`. -/
def stripUpper (s : String) : String := String.mk (pyUpper (pyStrip s.data))

/-- Python `sorted([a, b])` on two strings, as a pair (timsort compares with
`<`, and keeps the given order when neither element is smaller). -/
def sortPair (a b : String) : String × String := if b < a then (b, a) else (a, b)

namespace DocumentIDGenerator

/-- Source `DocumentIDGenerator._generate_id`: `{PREFIX}-{TYPE}-{HASH16}`. -/
def generateId (pfx : String) (dt : DocumentType) (canonical : String) : String :=
  pfx ++ "-" ++ dt.code ++ "-" ++ hash16 canonical

/-- The canonical string built inside `generate_invoice_id` (`none` when the
amount normalization raises). -/
def invoiceCanonical? (sellerNip invoiceNumber issueDate : String) (grossAmount : AmountValue) :
    Option String :=
  (AmountNormalizer.normalize? grossAmount).map fun a =>
    pyJoin "|" [NIPValidator.normalize sellerNip,
      InvoiceNumberNormalizer.normalize invoiceNumber,
      DateNormalizer.normalize issueDate, a]

/-- Source `DocumentIDGenerator.generate_invoice_id`. -/
def generate_invoice_id? (pfx sellerNip invoiceNumber issueDate : String)
    (grossAmount : AmountValue) : Option String :=
  (invoiceCanonical? sellerNip invoiceNumber issueDate grossAmount).map
    (generateId pfx .INVOICE)

/-- The canonical string built inside `generate_receipt_id`: three required
segments, then the receipt number and cash-register number only when truthy. -/
def receiptCanonical? (sellerNip receiptDate : String) (grossAmount : AmountValue)
    (receiptNumber cashRegisterNumber : Option String) : Option String :=
  (AmountNormalizer.normalize? grossAmount).map fun a =>
    pyJoin "|" ([NIPValidator.normalize sellerNip, DateNormalizer.normalize receiptDate, a] ++
      (if truthy receiptNumber then [stripUpper (orEmpty receiptNumber)] else []) ++
      (if truthy cashRegisterNumber then [stripUpper (orEmpty cashRegisterNumber)] else []))

/-- Source `DocumentIDGenerator.generate_receipt_id`. -/
def generate_receipt_id? (pfx sellerNip receiptDate : String) (grossAmount : AmountValue)
    (receiptNumber cashRegisterNumber : Option String) : Option String :=
  (receiptCanonical? sellerNip receiptDate grossAmount receiptNumber cashRegisterNumber).map
    (generateId pfx .RECEIPT)

/-- The canonical string built inside `generate_contract_id`: the two
normalized party NIPs sorted (Python `sorted` on two strings), the date, then
the truthy optional segments. -/
def contractCanonical (party1Nip party2Nip contractDate : String)
    (contractNumber contractType : Option String) : String :=
  let s := sortPair (NIPValidator.normalize party1Nip) (NIPValidator.normalize party2Nip)
  pyJoin "|" ([s.1, s.2, DateNormalizer.normalize contractDate] ++
    (if truthy contractNumber then [stripUpper (orEmpty contractNumber)] else []) ++
    (if truthy contractType then [stripUpper (orEmpty contractType)] else []))

/-- Source `DocumentIDGenerator.generate_contract_id`. -/
def generate_contract_id (pfx party1Nip party2Nip contractDate : String)
    (contractNumber contractType : Option String) : String :=
  generateId pfx .CONTRACT
    (contractCanonical party1Nip party2Nip contractDate contractNumber contractType)

/-- The canonical string built inside `generate_generic_id`:
`content_hash[:64]`, then the normalized date and NIP only when truthy. -/
def genericCanonical (contentHash : String) (documentDate issuerNip : Option String) : String :=
  pyJoin "|" ([String.mk (contentHash.data.take 64)] ++
    (if truthy documentDate then [DateNormalizer.normalize (orEmpty documentDate)] else []) ++
    (if truthy issuerNip then [NIPValidator.normalize (orEmpty issuerNip)] else []))

/-- Source `DocumentIDGenerator.generate_generic_id`. -/
def generate_generic_id (pfx : String) (dt : DocumentType) (contentHash : String)
    (documentDate issuerNip : Option String) : String :=
  generateId pfx dt (genericCanonical contentHash documentDate issuerNip)

/-- Source `DocumentIDGenerator.verify_id`: recompute the expected hash,
split the identifier on `-`, demand exactly three pieces and compare the
third with the expected hash. -/
def verify_id (document_id canonical_string : String) : Bool :=
  let expected := hash16 canonical_string
  let parts := pySplitChar '-' document_id.data
  if parts.length ≠ 3 then false
  else parts.getD 2 [] == expected.data

end DocumentIDGenerator

/-! ## Text evidence and extractors (ocr_processor.py, extractors/base.py)

The OCR engine is an external collaborator: a `DocumentOCRResult` is an input
of the model.  Confidences are modelled as exact rationals. -/

/-- One OCR line (`OCRResult`). -/
structure OCRLine where
  text : String
  confidence : ℚ

/-- Source `DocumentOCRResult` (the fields the pipeline and extractors read). -/
structure DocumentOCRResult where
  full_text : String
  lines : List OCRLine := []
  average_confidence : ℚ := 0
  engine_used : String := "tesseract"
  source_file : String := ""
  detected_nips : List String := []
  detected_amounts : List String := []
  detected_dates : List String := []
  detected_invoice_numbers : List String := []

/-- Source `DocumentCategory`. -/
inductive DocumentCategory where
  | invoice | receipt | contract | bank_statement | unknown
deriving DecidableEq

/-- Source `ExtractionResult` (the fields the pipeline reads). -/
structure ExtractionResult where
  category : DocumentCategory
  confidence : ℚ
  document_date : Option String := none
  issuer_nip : Option String := none
  invoice_number : Option String := none
  buyer_nip : Option String := none
  gross_amount : Option String := none
  receipt_number : Option String := none
  cash_register_number : Option String := none
  contract_number : Option String := none
  party2_nip : Option String := none

namespace InvoiceExtractor

/-- Source `InvoiceExtractor.INVOICE_KEYWORDS`. -/
def keywords : List String :=
  ["faktura", "fv", "rachunek", "invoice", "sprzedawca", "nabywca", "nip", "vat",
   "brutto", "netto", "podatek"]

/-- The discrete evidence signals read by `InvoiceExtractor.can_extract`:
keyword count, presence of NIPs, amounts and invoice numbers. -/
def signals (o : DocumentOCRResult) : Nat × Bool × Bool × Bool :=
  let textLower := pyLower o.full_text.data
  (keywords.countP fun kw => containsSub kw.data textLower,
   decide (1 ≤ o.detected_nips.length),
   decide (1 ≤ o.detected_amounts.length),
   decide (1 ≤ o.detected_invoice_numbers.length))

/-- Source `InvoiceExtractor.can_extract` (lines 134-150). -/
def can_extract (o : DocumentOCRResult) : Bool × ℚ :=
  let s := signals o
  let confidence : ℚ := min 1 ((s.1 : ℚ) * 0.15 + (if s.2.1 then 0.2 else 0) +
    (if s.2.2.1 then 0.2 else 0) + (if s.2.2.2 then 0.2 else 0))
  (decide ((0.4 : ℚ) < confidence), confidence)

end InvoiceExtractor

/-- Regex `\d+%`: some digit immediately followed (after further digits) by a
percent sign; equivalently some adjacent digit-percent pair. -/
def hasDigitPercent : List Char → Bool
  | a :: b :: rest => (isDigitC a && b == '%') || hasDigitPercent (b :: rest)
  | _ => false

namespace ReceiptExtractor

/-- Source `ReceiptExtractor.RECEIPT_KEYWORDS`. -/
def keywords : List String :=
  ["paragon", "fiskalny", "kasa", "sprzedaż", "gotówka", "karta", "reszta", "ptu", "suma"]

/-- The discrete evidence signals read by `ReceiptExtractor.can_extract`:
keyword count, fiscal markers, PTU or percent marks. -/
def signals (o : DocumentOCRResult) : Nat × Bool × Bool :=
  let textLower := pyLower o.full_text.data
  (keywords.countP fun kw => containsSub kw.data textLower,
   containsSub "fiskaln".data textLower || containsSub "paragon".data textLower,
   containsSub "ptu".data textLower || hasDigitPercent textLower)

/-- Source `ReceiptExtractor.can_extract` (lines 260-273). -/
def can_extract (o : DocumentOCRResult) : Bool × ℚ :=
  let s := signals o
  let confidence : ℚ := min 1 ((s.1 : ℚ) * 0.15 + (if s.2.1 then 0.3 else 0) +
    (if s.2.2 then 0.2 else 0))
  (decide ((0.4 : ℚ) < confidence), confidence)

end ReceiptExtractor

namespace ContractExtractor

/-- Source `ContractExtractor.CONTRACT_KEYWORDS`. -/
def keywords : List String :=
  ["umowa", "kontrakt", "porozumienie", "zlecenie", "strona", "wykonawca",
   "zamawiający", "zleceniodawca", "przedmiot", "wynagrodzenie", "termin"]

/-- The discrete evidence signals read by `ContractExtractor.can_extract`:
keyword count, contract header, party markers. -/
def signals (o : DocumentOCRResult) : Nat × Bool × Bool :=
  let textLower := pyLower o.full_text.data
  (keywords.countP fun kw => containsSub kw.data textLower,
   containsSub "umowa".data textLower || containsSub "kontrakt".data textLower,
   containsSub "strona".data textLower || containsSub "wykonawca".data textLower)

/-- Source `ContractExtractor.can_extract` (lines 354-366). -/
def can_extract (o : DocumentOCRResult) : Bool × ℚ :=
  let s := signals o
  let confidence : ℚ := min 1 ((s.1 : ℚ) * 0.1 + (if s.2.1 then 0.3 else 0) +
    (if s.2.2 then 0.2 else 0))
  (decide ((0.4 : ℚ) < confidence), confidence)

end ContractExtractor

namespace DocumentExtractor

/-- Source `DocumentExtractor.extract` restricted to the slice the claims
exercise: when every extractor's `can_extract` rejects the evidence (so the
best-confidence selection loop selects nothing), the unknown-category fallback
result of lines 479-491 is built.  When some extractor accepts, the selected
extractor's `extract` body (regex field recovery, not needed by any claim) is
outside this model and `none` is returned. -/
def extractFallback? (o : DocumentOCRResult) : Option ExtractionResult :=
  if (InvoiceExtractor.can_extract o).1 || (ReceiptExtractor.can_extract o).1 ||
      (ContractExtractor.can_extract o).1 then none
  else
    some { category := .unknown, confidence := o.average_confidence,
           document_date := o.detected_dates.head?,
           issuer_nip := o.detected_nips.head? }

end DocumentExtractor

/-! ## Pipeline (pipeline.py lines 93-364) -/

namespace DocumentPipeline

/-- Source `DocumentPipeline._map_category_to_type`. -/
def mapCategoryToType : DocumentCategory → DocumentType
  | .invoice => .INVOICE
  | .receipt => .RECEIPT
  | .contract => .CONTRACT
  | .bank_statement => .BANK_STATEMENT
  | .unknown => .OTHER

/-- The multi-page combination step of `DocumentPipeline.process`
(lines 156-172): texts joined with a blank line, lines concatenated, the mean
confidence, and each detected list combined with `list(set(sum(..., [])))`.
Iteration order of a Python `set` of strings is not specified (it varies with
the per-process hash seed), so the model takes the enumeration `pySet` as a
parameter; `PySetOk` states exactly what CPython guarantees about it. -/
def combinePdfPages (pySet : List String → List String) (pages : List DocumentOCRResult)
    (sourceFile : String) : DocumentOCRResult :=
  { full_text := pyJoin "\n\n" (pages.map (·.full_text)),
    lines := pages.flatMap (·.lines),
    average_confidence := (pages.map (·.average_confidence)).sum / (pages.length : ℚ),
    engine_used := (pages.headD {full_text := ""}).engine_used,
    source_file := sourceFile,
    detected_nips := pySet (pages.flatMap (·.detected_nips)),
    detected_amounts := pySet (pages.flatMap (·.detected_amounts)),
    detected_dates := pySet (pages.flatMap (·.detected_dates)),
    detected_invoice_numbers := pySet (pages.flatMap (·.detected_invoice_numbers)) }

/-- What CPython guarantees about `list(set(xs))`: a duplicate-free
enumeration of exactly the members of `xs`, in an unspecified order. -/
def PySetOk (pySet : List String → List String) : Prop :=
  ∀ xs, (pySet xs).Nodup ∧ ∀ a, a ∈ pySet xs ↔ a ∈ xs

/-- Source `DocumentPipeline._generate_id` (lines 279-364): returns the pair
(document_id, canonical_string); `none` models a propagated exception. -/
def pipelineGenerateId (pfx : String) (extraction : ExtractionResult) (docType : DocumentType)
    (ocr : DocumentOCRResult) : Option (String × String) :=
  if docType = .INVOICE then
    let canonical := pyJoin "|"
      [NIPValidator.normalize (orEmpty extraction.issuer_nip),
       String.mk (pyUpper (orEmpty extraction.invoice_number).data),
       DateNormalizer.normalize (orEmpty extraction.document_date),
       AmountNormalizer.normalizeStr (orZero extraction.gross_amount)]
    (DocumentIDGenerator.generate_invoice_id? pfx (orEmpty extraction.issuer_nip)
      (orEmpty extraction.invoice_number) (orEmpty extraction.document_date)
      (.strVal (orZero extraction.gross_amount))).map fun i => (i, canonical)
  else if docType = .RECEIPT then
    let canonical := pyJoin "|"
      ([NIPValidator.normalize (orEmpty extraction.issuer_nip),
        DateNormalizer.normalize (orEmpty extraction.document_date),
        AmountNormalizer.normalizeStr (orZero extraction.gross_amount)] ++
       (if truthy extraction.receipt_number then [orEmpty extraction.receipt_number] else []) ++
       (if truthy extraction.cash_register_number then
         [orEmpty extraction.cash_register_number] else []))
    (DocumentIDGenerator.generate_receipt_id? pfx (orEmpty extraction.issuer_nip)
      (orEmpty extraction.document_date) (.strVal (orZero extraction.gross_amount))
      extraction.receipt_number extraction.cash_register_number).map fun i => (i, canonical)
  else if docType = .CONTRACT then
    let s := sortPair (NIPValidator.normalize (orEmpty extraction.issuer_nip))
      (NIPValidator.normalize (orEmpty extraction.party2_nip))
    let canonical := pyJoin "|"
      ([s.1, s.2, DateNormalizer.normalize (orEmpty extraction.document_date)] ++
       (if truthy extraction.contract_number then
         [String.mk (pyUpper (orEmpty extraction.contract_number).data)] else []))
    some (DocumentIDGenerator.generate_contract_id pfx (orEmpty extraction.issuer_nip)
      (orEmpty extraction.party2_nip) (orEmpty extraction.document_date)
      extraction.contract_number none, canonical)
  else
    let contentHash := sha256HexLower ocr.full_text
    let canonical := pyJoin "|"
      [String.mk (contentHash.data.take 32),
       DateNormalizer.normalize (orEmpty extraction.document_date),
       NIPValidator.normalize (orEmpty extraction.issuer_nip)]
    some (DocumentIDGenerator.generate_generic_id pfx docType contentHash
      extraction.document_date extraction.issuer_nip, canonical)

/-- Steps 2-4 of `DocumentPipeline.process` on acquired text evidence (no
forced type): extraction, category mapping, identifier generation. -/
def processOcr? (pfx : String) (ocr : DocumentOCRResult) : Option (String × String) :=
  (DocumentExtractor.extractFallback? ocr).bind fun extraction =>
    pipelineGenerateId pfx extraction (mapCategoryToType extraction.category) ocr

/-- The multi-page PDF path of `DocumentPipeline.process`: an empty page list
raises, otherwise the pages are combined and processed. -/
def processPdfPages? (pfx : String) (pySet : List String → List String)
    (pages : List DocumentOCRResult) (sourceFile : String) : Option (String × String) :=
  if pages.isEmpty then none
  else processOcr? pfx (combinePdfPages pySet pages sourceFile)

/-- Annotation fields of a `ProcessedDocument` produced by the duplicate
check. -/
structure DupAnnotation where
  is_duplicate : Bool
  duplicate_of : Option String
  document_id : String

/-- Step 5 of `DocumentPipeline.process` (lines 212-233): look the canonical
string up in `_processed_ids`, annotate, and insert only on a miss.  The
cache is the insertion-ordered association list of a Python dict. -/
def dupCheck (cache : List (String × String)) (document_id canonical : String) :
    DupAnnotation × List (String × String) :=
  match List.lookup canonical cache with
  | some existing =>
    ({ is_duplicate := true, duplicate_of := some existing, document_id := document_id }, cache)
  | none =>
    ({ is_duplicate := false, duplicate_of := none, document_id := document_id },
      cache ++ [(canonical, document_id)])

/-- Iterated `process` calls on one pipeline instance, restricted to the
duplicate-cache state: each call contributes its generated
(document_id, canonical_string) pair. -/
def runPipelineTrace (cache : List (String × String)) :
    List (String × String) → List DupAnnotation × List (String × String)
  | [] => ([], cache)
  | (did, canon) :: rest =>
    let r := dupCheck cache did canon
    let rs := runPipelineTrace r.2 rest
    (r.1 :: rs.1, rs.2)

end DocumentPipeline

/-! ## Model instances used by the concrete claims -/

/-- Order-preserving duplicate removal: one admissible enumeration of a
Python set built from a list. -/
def dedupKeepFirstAux (seen : List String) : List String → List String
  | [] => []
  | x :: r => if x ∈ seen then dedupKeepFirstAux seen r else x :: dedupKeepFirstAux (x :: seen) r

/-- Duplicate removal keeping first occurrences. -/
def dedupKeepFirst (l : List String) : List String := dedupKeepFirstAux [] l

/-- Duplicate removal in reversed order: another admissible enumeration of a
Python set built from a list (set order is hash-seed dependent). -/
def dedupKeepFirstRev (l : List String) : List String := (dedupKeepFirst l).reverse

/-- Text evidence of a one-page document of unknown kind ("x"). -/
def otherDocOcr : DocumentOCRResult :=
  { full_text := "x", lines := [{ text := "x", confidence := 1 }],
    average_confidence := 1, source_file := "doc.txt" }

/-- First page of the multi-page PDF example: text "foo", one detected NIP. -/
def pdfPage1 : DocumentOCRResult :=
  { full_text := "foo", average_confidence := 0.9, detected_nips := ["1111111111"] }

/-- Second page of the multi-page PDF example: text "bar", another NIP. -/
def pdfPage2 : DocumentOCRResult :=
  { full_text := "bar", average_confidence := 0.7, detected_nips := ["2222222222"] }

/-- The first `|`-separated segment of a canonical string. -/
def firstBarSegment (s : String) : String := String.mk (s.data.takeWhile fun c => !(c == '|'))

/-- Little-endian value of a digit list. -/
def digitsValLE (ds : List Nat) : Nat := ds.foldr (fun d acc => d + 10 * acc) 0

/-- Absence of an adjacent double slash. -/
def noDS (a b : Char) : Prop := ¬(a = '/' ∧ b = '/')

/-- The identifier recorded for a canonical string by the first document that
produced it. -/
def firstIdFor (docs : List (String × String)) (c : String) : Option String :=
  (docs.find? fun p => p.2 == c).map (·.1)

end Docid

-- (removed)

namespace Docid

/-- An extractor with zero keyword hits and no structural signals rejects the
evidence. -/
theorem InvoiceExtractor.invoice_rejects_of_no_signals (o : DocumentOCRResult)
    (h : InvoiceExtractor.signals o = (0, false, false, false)) :
    (InvoiceExtractor.can_extract o).1 = false := by
  simp only [InvoiceExtractor.can_extract, h, decide_eq_false_iff_not]
  norm_num

/-- A receipt extractor with zero signals rejects the evidence. -/
theorem ReceiptExtractor.receipt_rejects_of_no_signals (o : DocumentOCRResult)
    (h : ReceiptExtractor.signals o = (0, false, false)) :
    (ReceiptExtractor.can_extract o).1 = false := by
  simp only [ReceiptExtractor.can_extract, h, decide_eq_false_iff_not]
  norm_num

/-- A contract extractor with zero signals rejects the evidence. -/
theorem ContractExtractor.contract_rejects_of_no_signals (o : DocumentOCRResult)
    (h : ContractExtractor.signals o = (0, false, false)) :
    (ContractExtractor.can_extract o).1 = false := by
  simp only [ContractExtractor.can_extract, h, decide_eq_false_iff_not]
  norm_num

end Docid

namespace Docid

/-- Rejection of the unknown one-page document by every extractor. -/
theorem extractFallback_otherDocOcr :
    DocumentExtractor.extractFallback? otherDocOcr =
    some { category := .unknown, confidence := otherDocOcr.average_confidence,
           document_date := none, issuer_nip := none } := by
  unfold DocumentExtractor.extractFallback?
  rw [InvoiceExtractor.invoice_rejects_of_no_signals _ (by decide),
    ReceiptExtractor.receipt_rejects_of_no_signals _ (by decide),
    ContractExtractor.contract_rejects_of_no_signals _ (by decide)]
  rfl

/-- C1 exhibit: on the unknown-kind document "x" the pipeline's returned
canonical string does not verify against the returned identifier:
`DocumentIDGenerator.verify_id` is false on the `ProcessedDocument` pair. -/
theorem c1_pipeline_verify_fails :
    (DocumentPipeline.processOcr? "DOC" otherDocOcr).map
      (fun p => DocumentIDGenerator.verify_id p.1 p.2) = some false := by
  unfold DocumentPipeline.processOcr?
  rw [extractFallback_otherDocOcr]
  set_option maxRecDepth 100000 in decide

end Docid

namespace Docid

/-- Membership characterization of the first-occurrence dedup. -/
theorem mem_dedupKeepFirstAux (l : List String) :
    ∀ seen a, a ∈ dedupKeepFirstAux seen l ↔ a ∈ l ∧ a ∉ seen := by
  induction l with
  | nil => intro seen a; simp [dedupKeepFirstAux]
  | cons x r ih =>
    intro seen a
    unfold dedupKeepFirstAux
    by_cases hx : x ∈ seen
    · rw [if_pos hx, ih]
      constructor
      · rintro ⟨h1, h2⟩; exact ⟨List.mem_cons_of_mem _ h1, h2⟩
      · rintro ⟨h1, h2⟩
        rcases List.mem_cons.mp h1 with rfl | h1
        · exact absurd hx h2
        · exact ⟨h1, h2⟩
    · rw [if_neg hx]
      constructor
      · intro h
        rcases List.mem_cons.mp h with rfl | h
        · exact ⟨List.mem_cons_self a r, hx⟩
        · obtain ⟨h1, h2⟩ := (ih (x :: seen) a).mp h
          exact ⟨List.mem_cons_of_mem _ h1, fun hc => h2 (List.mem_cons_of_mem _ hc)⟩
      · rintro ⟨h1, h2⟩
        rcases List.mem_cons.mp h1 with rfl | h1
        · exact List.mem_cons_self a _
        · by_cases hax : a = x
          · subst hax; exact List.mem_cons_self a _
          · exact List.mem_cons_of_mem _ ((ih (x :: seen) a).mpr
              ⟨h1, fun hc => (List.mem_cons.mp hc).elim hax h2⟩)

/-- The first-occurrence dedup has no duplicates. -/
theorem nodup_dedupKeepFirstAux (l : List String) :
    ∀ seen, (dedupKeepFirstAux seen l).Nodup := by
  induction l with
  | nil => intro seen; simp [dedupKeepFirstAux]
  | cons x r ih =>
    intro seen
    unfold dedupKeepFirstAux
    by_cases hx : x ∈ seen
    · rw [if_pos hx]; exact ih seen
    · rw [if_neg hx]
      refine List.Nodup.cons ?_ (ih (x :: seen))
      intro hc
      exact ((mem_dedupKeepFirstAux r (x :: seen) x).mp hc).2 (List.mem_cons_self x seen)

/-- The forward enumeration is an admissible Python set enumeration. -/
theorem pySetOk_dedupKeepFirst : DocumentPipeline.PySetOk dedupKeepFirst := by
  intro xs
  constructor
  · exact nodup_dedupKeepFirstAux xs []
  · intro a
    rw [dedupKeepFirst, mem_dedupKeepFirstAux]
    simp

/-- The reversed enumeration is an admissible Python set enumeration. -/
theorem pySetOk_dedupKeepFirstRev : DocumentPipeline.PySetOk dedupKeepFirstRev := by
  intro xs
  constructor
  · exact (List.nodup_reverse).mpr (pySetOk_dedupKeepFirst xs).1
  · intro a
    rw [dedupKeepFirstRev, List.mem_reverse]
    exact (pySetOk_dedupKeepFirst xs).2 a

/-- With no keyword hits, no detected amounts and no detected invoice
numbers, the invoice extractor rejects whether or not NIPs were detected
(confidence at most 0.2). -/
theorem InvoiceExtractor.rejects_of_no_keywords (o : DocumentOCRResult) (b : Bool)
    (h : InvoiceExtractor.signals o = (0, b, false, false)) :
    (InvoiceExtractor.can_extract o).1 = false := by
  simp only [InvoiceExtractor.can_extract, h, decide_eq_false_iff_not]
  cases b <;> norm_num

/-- Rejection of the combined two-page evidence by every extractor, under the
first-occurrence set enumeration. -/
theorem extractFallback_comb1 :
    DocumentExtractor.extractFallback?
        (DocumentPipeline.combinePdfPages dedupKeepFirst [pdfPage1, pdfPage2] "multi.pdf") =
      some { category := .unknown,
             confidence := (DocumentPipeline.combinePdfPages dedupKeepFirst [pdfPage1, pdfPage2]
               "multi.pdf").average_confidence,
             document_date := none,
             issuer_nip := some "1111111111" } := by
  unfold DocumentExtractor.extractFallback?
  rw [InvoiceExtractor.rejects_of_no_keywords _ true (by decide),
    ReceiptExtractor.receipt_rejects_of_no_signals _ (by decide),
    ContractExtractor.contract_rejects_of_no_signals _ (by decide)]
  rfl

/-- Rejection of the combined two-page evidence by every extractor, under the
reversed set enumeration. -/
theorem extractFallback_comb2 :
    DocumentExtractor.extractFallback?
        (DocumentPipeline.combinePdfPages dedupKeepFirstRev [pdfPage1, pdfPage2] "multi.pdf") =
      some { category := .unknown,
             confidence := (DocumentPipeline.combinePdfPages dedupKeepFirstRev [pdfPage1, pdfPage2]
               "multi.pdf").average_confidence,
             document_date := none,
             issuer_nip := some "2222222222" } := by
  unfold DocumentExtractor.extractFallback?
  rw [InvoiceExtractor.rejects_of_no_keywords _ true (by decide),
    ReceiptExtractor.receipt_rejects_of_no_signals _ (by decide),
    ContractExtractor.contract_rejects_of_no_signals _ (by decide)]
  rfl

/-- C4 exhibit: both enumerations are admissible results of
`list(set(...))`, yet the two runs of the multi-page PDF path produce
different identifiers: the detected-token union is not performed in
first-occurrence order, and the identifier is not repeatable across process
restarts (the set order follows the per-process string hash seed). -/
theorem c4_multipage_set_order :
    DocumentPipeline.PySetOk dedupKeepFirst ∧ DocumentPipeline.PySetOk dedupKeepFirstRev ∧
    (DocumentPipeline.processPdfPages? "DOC" dedupKeepFirst [pdfPage1, pdfPage2]
        "multi.pdf").map Prod.fst ≠
      (DocumentPipeline.processPdfPages? "DOC" dedupKeepFirstRev [pdfPage1, pdfPage2]
        "multi.pdf").map Prod.fst := by
  refine ⟨pySetOk_dedupKeepFirst, pySetOk_dedupKeepFirstRev, ?_⟩
  unfold DocumentPipeline.processPdfPages? DocumentPipeline.processOcr?
  rw [if_neg (by decide), if_neg (by decide), extractFallback_comb1, extractFallback_comb2]
  set_option maxRecDepth 100000 in decide

end Docid

namespace Docid

/-- Sorting a two-element list of strings does not depend on the argument
order. -/
theorem sortPair_comm (a b : String) : sortPair a b = sortPair b a := by
  unfold sortPair
  rcases lt_trichotomy a b with h | h | h
  · rw [if_neg (fun hc => absurd h (not_lt_of_gt hc)), if_pos h]
  · simp [h]
  · rw [if_pos h, if_neg (fun hc => absurd h (not_lt_of_gt hc))]

/-- Claim C8: swapping the two party NIPs never changes a contract
identifier: the normalized NIPs are sorted before joining. -/
theorem c8_contract_party_order (pfx party1 party2 contractDate : String)
    (contractNumber contractType : Option String) :
    DocumentIDGenerator.generate_contract_id pfx party1 party2 contractDate
        contractNumber contractType =
      DocumentIDGenerator.generate_contract_id pfx party2 party1 contractDate
        contractNumber contractType := by
  unfold DocumentIDGenerator.generate_contract_id DocumentIDGenerator.contractCanonical
  rw [sortPair_comm]

/-- Claim C3: the invoice scenario of §8: the canonical string of the clean
inputs, the identifier shape, and byte-identity of the identifier for the
messy renderings of the same invoice (float `1230.50` prints as `"1230.5"`). -/
theorem c3_invoice_concrete :
    DocumentIDGenerator.invoiceCanonical? "5213017228" "FV/2025/00142" "2025-01-15"
        (.numLit "1230.5") = some "5213017228|FV/2025/00142|2025-01-15|1230.50" ∧
    DocumentIDGenerator.generate_invoice_id? "DOC" "5213017228" "FV/2025/00142" "2025-01-15"
        (.numLit "1230.5") =
      some ("DOC-FV-" ++ hash16 "5213017228|FV/2025/00142|2025-01-15|1230.50") ∧
    DocumentIDGenerator.generate_invoice_id? "DOC" "521-301-72-28" "fv/2025/00142" "15.01.2025"
        (.strVal "1 230,50 zł") =
      DocumentIDGenerator.generate_invoice_id? "DOC" "5213017228" "FV/2025/00142" "2025-01-15"
        (.numLit "1230.5") :=
  ⟨by decide, rfl, rfl⟩

end Docid

namespace Docid

/-- Claim C10: `verify_id` is true exactly when the identifier splits on `-`
into three pieces whose third piece is the uppercased 16-hex-character SHA-256
prefix of the canonical string; the first two pieces are arbitrary, and any
other piece count gives `false`. -/
theorem c10_verify_id_iff (did canon : String) :
    DocumentIDGenerator.verify_id did canon = true ↔
      ∃ p k, pySplitChar '-' did.data = [p, k, (hash16 canon).data] := by
  simp only [DocumentIDGenerator.verify_id]
  by_cases h : (pySplitChar '-' did.data).length = 3
  · obtain ⟨a, b, c, hl⟩ := List.length_eq_three.mp h
    rw [hl]
    simp
  · rw [if_pos h]
    simp only [Bool.false_eq_true, false_iff]
    rintro ⟨p, k, hpk⟩
    exact h (by rw [hpk]; rfl)

end Docid

namespace Docid

/-- Hex rendering doubles the byte count. -/
theorem bytesToHex_length (bs : List Nat) : (bytesToHex bs).length = 2 * bs.length := by
  induction bs with
  | nil => rfl
  | cons b rest ih => simp [bytesToHex, List.flatMap_cons] at ih ⊢; omega

/-- A SHA-256 digest has 32 bytes. -/
theorem sha256_length (msg : List Nat) : (sha256 msg).length = 32 := by
  simp [sha256, wordBytes]

/-- A SHA-256 hexdigest has 64 characters. -/
theorem sha256HexChars_length (s : String) : (sha256HexChars s).length = 64 := by
  rw [sha256HexChars, bytesToHex_length, sha256_length]

/-- C6 counterexample: on the unknown-kind document "x" the first segment of
the pipeline's returned canonical string is not the first 64 hex characters
of the SHA-256 of the OCR text (the code takes 32). -/
theorem c6_counterexample :
    (DocumentPipeline.processOcr? "DOC" otherDocOcr).map (fun p => firstBarSegment p.2) ≠
      some (String.mk ((sha256HexChars "x").take 64)) := by
  unfold DocumentPipeline.processOcr?
  rw [extractFallback_otherDocOcr]
  set_option maxRecDepth 100000 in decide

/-- C6 amended: for every non-invoice/receipt/contract document type the
pipeline returns canonical string `content_hash[:32] | date | nip` with both
trailing segments always present (empty when the fields are missing), while
the generator's own canonical string — the one hashed into the returned
identifier — starts with `content_hash[:64]` and appends the date and NIP
segments only when truthy; a hexdigest has 64 characters, so the returned
first segment has 32 of them. -/
theorem c6_amended :
    (∀ pfx (ext : ExtractionResult) (ocr : DocumentOCRResult) dt,
      dt ≠ DocumentType.INVOICE → dt ≠ DocumentType.RECEIPT → dt ≠ DocumentType.CONTRACT →
      DocumentPipeline.pipelineGenerateId pfx ext dt ocr =
        some (DocumentIDGenerator.generate_generic_id pfx dt (sha256HexLower ocr.full_text)
            ext.document_date ext.issuer_nip,
          pyJoin "|" [String.mk ((sha256HexChars ocr.full_text).take 32),
            DateNormalizer.normalize (orEmpty ext.document_date),
            NIPValidator.normalize (orEmpty ext.issuer_nip)])) ∧
    (∀ contentHash dd nip, truthy dd = false → truthy nip = false →
      DocumentIDGenerator.genericCanonical contentHash dd nip =
        String.mk (contentHash.data.take 64)) ∧
    (∀ t, (String.mk ((sha256HexChars t).take 32)).length = 32 ∧
      (String.mk ((sha256HexChars t).take 64)).length = 64) := by
  refine ⟨?_, ?_, ?_⟩
  · intro pfx ext ocr dt h1 h2 h3
    unfold DocumentPipeline.pipelineGenerateId
    rw [if_neg h1, if_neg h2, if_neg h3]
    rfl
  · intro contentHash dd nip h1 h2
    unfold DocumentIDGenerator.genericCanonical
    rw [h1, h2]
    simp [pyJoin, List.intercalate]
  · intro t
    constructor
    · simp [String.length, List.length_take, sha256HexChars_length]
    · simp [String.length, List.length_take, sha256HexChars_length]

/-- Closed instantiation of `c6_amended` at the unknown document "x". -/
theorem c6_amended_witness :
    DocumentPipeline.pipelineGenerateId "DOC"
        { category := .unknown, confidence := 0 } DocumentType.OTHER otherDocOcr =
      some (DocumentIDGenerator.generate_generic_id "DOC" DocumentType.OTHER
          (sha256HexLower otherDocOcr.full_text) none none,
        pyJoin "|" [String.mk ((sha256HexChars otherDocOcr.full_text).take 32),
          DateNormalizer.normalize (orEmpty none),
          NIPValidator.normalize (orEmpty none)]) :=
  c6_amended.1 "DOC" { category := .unknown, confidence := 0 } otherDocOcr DocumentType.OTHER
    (by decide) (by decide) (by decide)

end Docid

namespace Docid

/-- Claim C7: the receipt scenario of §8: with both optional fields absent
(or empty) the canonical string is exactly the three required segments — no
trailing separator — and the identifier is `DOC-PAR-` followed by the hash of
that canonical string; a truthy optional field appends exactly one segment. -/
theorem c7_receipt_trailing :
    DocumentIDGenerator.receiptCanonical? "5213017228" "2025-01-15" (.numLit "45.99")
        none none = some "5213017228|2025-01-15|45.99" ∧
    DocumentIDGenerator.generate_receipt_id? "DOC" "5213017228" "2025-01-15" (.numLit "45.99")
        none none = some ("DOC-PAR-" ++ hash16 "5213017228|2025-01-15|45.99") ∧
    (∀ n d (a : AmountValue) (rn cr : Option String), truthy rn = false → truthy cr = false →
      DocumentIDGenerator.receiptCanonical? n d a rn cr =
        (AmountNormalizer.normalize? a).map fun am =>
          pyJoin "|" [NIPValidator.normalize n, DateNormalizer.normalize d, am]) ∧
    (∀ n d (a : AmountValue) (rn cr : Option String), truthy rn = true → truthy cr = false →
      DocumentIDGenerator.receiptCanonical? n d a rn cr =
        (AmountNormalizer.normalize? a).map fun am =>
          pyJoin "|" [NIPValidator.normalize n, DateNormalizer.normalize d, am,
            stripUpper (orEmpty rn)]) := by
  refine ⟨by decide, rfl, ?_, ?_⟩
  · intro n d a rn cr h1 h2
    unfold DocumentIDGenerator.receiptCanonical?
    rw [h1, h2]
    rfl
  · intro n d a rn cr h1 h2
    unfold DocumentIDGenerator.receiptCanonical?
    rw [h1, h2]
    rfl

/-- Closed instantiation of `c7_receipt_trailing`: an empty optional receipt
number appends nothing. -/
theorem c7_receipt_trailing_witness :
    DocumentIDGenerator.receiptCanonical? "5213017228" "2025-01-15" (.numLit "45.99")
        (some "") (some "") =
      (AmountNormalizer.normalize? (.numLit "45.99")).map fun am =>
        pyJoin "|" [NIPValidator.normalize "5213017228", DateNormalizer.normalize "2025-01-15",
          am] :=
  c7_receipt_trailing.2.2.1 "5213017228" "2025-01-15" (.numLit "45.99") (some "") (some "")
    (by decide) (by decide)

end Docid

namespace Docid

/-- Lowercase-column characters of the case table have code points at least
97. -/
theorem lowerUpperPairs_first_ge :
    lowerUpperPairs.all (fun q => decide (97 ≤ q.1.toNat)) = true := by decide

/-- Characters below code point 97 are fixed by `str.upper()`. -/
theorem pyUpperChar_fixed_of_lt97 (c : Char) (h : c.toNat < 97) : pyUpperChar c = c := by
  unfold pyUpperChar
  rw [List.find?_eq_none.mpr fun p hp hbeq => by
    have h1 : 97 ≤ p.1.toNat :=
      of_decide_eq_true (List.all_eq_true.mp lowerUpperPairs_first_ge p hp)
    rw [beq_iff_eq.mp hbeq] at h1
    omega]

/-- No uppercase image of the case table is itself a lowercase key. -/
theorem pyUpperChar_no_relower :
    ∀ p ∈ lowerUpperPairs, lowerUpperPairs.find? (·.1 == p.2) = none := by decide

/-- Python `str.upper()` is idempotent character by character. -/
theorem pyUpperChar_idem (c : Char) : pyUpperChar (pyUpperChar c) = pyUpperChar c := by
  unfold pyUpperChar
  cases h : lowerUpperPairs.find? (·.1 == c) with
  | none => rw [h]
  | some p => rw [pyUpperChar_no_relower p (List.mem_of_find?_eq_some h)]

/-- Bound form of the digit-character test. -/
theorem isDigitC_iff (c : Char) : isDigitC c = true ↔ 48 ≤ c.toNat ∧ c.toNat ≤ 57 := by
  simp [isDigitC]

/-- Characters in the printable band are not Python whitespace. -/
theorem pyIsSpace_false_mid (c : Char) (h1 : 33 ≤ c.toNat) (h2 : c.toNat ≤ 132) :
    pyIsSpace c = false := by
  simp only [pyIsSpace, List.mem_cons, List.not_mem_nil, or_false, decide_eq_false_iff_not]
  omega

/-- Characters between `-` and `9` are not currency characters. -/
theorem isCurrencyChar_false_of (c : Char) (h1 : 45 ≤ c.toNat) (h2 : c.toNat ≤ 57) :
    AmountNormalizer.isCurrencyChar c = false := by
  have hz : (c == 'Z') = false :=
    beq_eq_false_iff_ne.mpr fun hc => absurd (hc ▸ h2) (by decide)
  have hl : (c == 'Ł') = false :=
    beq_eq_false_iff_ne.mpr fun hc => absurd (hc ▸ h2) (by decide)
  have hp : (c == 'P') = false :=
    beq_eq_false_iff_ne.mpr fun hc => absurd (hc ▸ h2) (by decide)
  have hll : (c == 'L') = false :=
    beq_eq_false_iff_ne.mpr fun hc => absurd (hc ▸ h2) (by decide)
  have hn : (c == 'N') = false :=
    beq_eq_false_iff_ne.mpr fun hc => absurd (hc ▸ h2) (by decide)
  simp [AmountNormalizer.isCurrencyChar, hz, hl, hp, hll, hn,
    pyIsSpace_false_mid c (by omega) (by omega)]

/-- Digit characters have the expected code points. -/
theorem digitChar10_toNat (d : Nat) (h : d < 10) : (digitChar10 d).toNat = 48 + d := by
  interval_cases d <;> rfl

/-- Digit characters pass the digit test. -/
theorem digitChar10_isDigit (d : Nat) (h : d < 10) : isDigitC (digitChar10 d) = true := by
  interval_cases d <;> decide

/-- All entries produced by the fueled digit extraction are below ten. -/
theorem natDigitsRevAux_all_lt : ∀ f n d, d ∈ natDigitsRevAux f n → d < 10 := by
  intro f
  induction f with
  | zero => intro n d hd; simp [natDigitsRevAux] at hd
  | succ f ih =>
    intro n d hd
    unfold natDigitsRevAux at hd
    by_cases hn : n = 0
    · rw [if_pos hn] at hd; simp at hd
    · rw [if_neg hn] at hd
      rcases List.mem_cons.mp hd with rfl | hd
      · exact Nat.mod_lt _ (by omega)
      · exact ih _ _ hd

/-- All characters of a printed natural number are digits. -/
theorem natToChars_all_digit (n : Nat) : ∀ c ∈ natToChars n, isDigitC c = true := by
  intro c hc
  unfold natToChars at hc
  by_cases hn : n = 0
  · rw [if_pos hn] at hc
    rcases List.mem_singleton.mp hc with rfl
    decide
  · rw [if_neg hn] at hc
    obtain ⟨d, hd, rfl⟩ := List.mem_map.mp hc
    exact digitChar10_isDigit d (natDigitsRevAux_all_lt n n d (List.mem_reverse.mp hd))

/-- A printed natural number is never empty. -/
theorem natToChars_ne_nil (n : Nat) : natToChars n ≠ [] := by
  unfold natToChars
  by_cases hn : n = 0
  · rw [if_pos hn]; simp
  · rw [if_neg hn]
    obtain ⟨f, rfl⟩ := Nat.exists_eq_succ_of_ne_zero hn
    unfold natDigitsRevAux
    rw [if_neg (by omega)]
    simp

/-- The fueled digit extraction is value-correct when given enough fuel. -/
theorem natDigitsRevAux_val : ∀ f n, n ≤ f → digitsValLE (natDigitsRevAux f n) = n := by
  intro f
  induction f with
  | zero => intro n hn; interval_cases n; rfl
  | succ f ih =>
    intro n hn
    unfold natDigitsRevAux
    by_cases hzero : n = 0
    · rw [if_pos hzero, hzero]; rfl
    · rw [if_neg hzero]
      have hdiv : n / 10 ≤ f := by
        have := Nat.div_lt_self (Nat.pos_of_ne_zero hzero) (by omega : 1 < 10)
        omega
      have := ih (n / 10) hdiv
      simp only [digitsValLE, List.foldr_cons] at this ⊢
      rw [this]
      omega

/-- Folding the big-endian digit value from a starting accumulator. -/
theorem charsVal_foldl_init (l : List Char) :
    ∀ v : Nat, l.foldl (fun a c => 10 * a + (c.toNat - 48)) v =
      v * 10 ^ l.length + charsVal l := by
  induction l with
  | nil => intro v; simp [charsVal]
  | cons c rest ih =>
    intro v
    simp only [List.foldl_cons, List.length_cons, charsVal]
    rw [show 10 * 0 + (c.toNat - 48) = c.toNat - 48 from by omega]
    rw [ih (10 * v + (c.toNat - 48)), ih (c.toNat - 48)]
    ring

/-- Big-endian character value of an append. -/
theorem charsVal_append (l1 l2 : List Char) :
    charsVal (l1 ++ l2) = charsVal l1 * 10 ^ l2.length + charsVal l2 := by
  simp only [charsVal, List.foldl_append]
  rw [charsVal_foldl_init]
  rfl

/-- Reversing a little-endian digit list and printing it preserves the value. -/
theorem charsVal_reverse_map (ds : List Nat) (h : ∀ d ∈ ds, d < 10) :
    charsVal ((ds.reverse).map digitChar10) = digitsValLE ds := by
  induction ds with
  | nil => rfl
  | cons d rest ih =>
    have hd : d < 10 := h d (List.mem_cons_self d rest)
    have hrest : ∀ x ∈ rest, x < 10 := fun x hx => h x (List.mem_cons_of_mem _ hx)
    simp only [List.reverse_cons, List.map_append, List.map_cons, List.map_nil]
    rw [charsVal_append, ih hrest]
    simp only [digitsValLE, List.foldr_cons, List.length_cons, List.length_nil]
    have : charsVal [digitChar10 d] = d := by
      simp [charsVal, digitChar10_toNat d hd]
    rw [this]
    simp only [digitsValLE] at *
    ring

/-- The printed natural number parses back to itself. -/
theorem charsVal_natToChars (n : Nat) : charsVal (natToChars n) = n := by
  unfold natToChars
  by_cases hn : n = 0
  · rw [if_pos hn, hn]; rfl
  · rw [if_neg hn]
    rw [charsVal_reverse_map _ (natDigitsRevAux_all_lt n n)]
    exact natDigitsRevAux_val n n le_rfl

/-- The two-digit rendering parses back to the value below one hundred. -/
theorem charsVal_pad2 (n : Nat) (h : n < 100) : charsVal (pad2 n) = n := by
  simp only [pad2, charsVal, List.foldl_cons, List.foldl_nil]
  rw [digitChar10_toNat _ (by omega), digitChar10_toNat _ (by omega)]
  omega

/-- Both pad2 characters are digits. -/
theorem pad2_all_digit (n : Nat) : ∀ c ∈ pad2 n, isDigitC c = true := by
  intro c hc
  simp only [pad2, List.mem_cons, List.not_mem_nil, or_false] at hc
  rcases hc with rfl | rfl
  · exact digitChar10_isDigit _ (by omega)
  · exact digitChar10_isDigit _ (by omega)

end Docid

namespace Docid
/-- takeWhile and dropWhile at a first failing element after a passing
block. -/
theorem takeWhile_append_stop (p : Char → Bool) (x : Char) (l2 : List Char) :
    ∀ l1 : List Char, (∀ c ∈ l1, p c = true) → p x = false →
      (l1 ++ x :: l2).takeWhile p = l1 ∧ (l1 ++ x :: l2).dropWhile p = x :: l2 := by
  intro l1
  induction l1 with
  | nil => intro _ hx; simp [List.takeWhile_cons, List.dropWhile_cons, hx]
  | cons c rest ih =>
    intro h hx
    have hc : p c = true := h c (List.mem_cons_self c rest)
    have := ih (fun d hd => h d (List.mem_cons_of_mem _ hd)) hx
    simp [List.takeWhile_cons, List.dropWhile_cons, hc, this.1, this.2]

/-- takeWhile and dropWhile on an all-passing list. -/
theorem takeWhile_all (p : Char → Bool) :
    ∀ l : List Char, (∀ c ∈ l, p c = true) → l.takeWhile p = l ∧ l.dropWhile p = [] := by
  intro l
  induction l with
  | nil => intro _; simp
  | cons c rest ih =>
    intro h
    have hc : p c = true := h c (List.mem_cons_self c rest)
    have := ih (fun d hd => h d (List.mem_cons_of_mem _ hd))
    simp [List.takeWhile_cons, List.dropWhile_cons, hc, this.1, this.2]

/-- Mapping the comma substitution over a comma-free list does nothing. -/
theorem map_comma_id (l : List Char) (h : ∀ c ∈ l, (c == ',') = false) :
    l.map (fun c => if c == ',' then '.' else c) = l := by
  induction l with
  | nil => rfl
  | cons c rest ih =>
    have hc := h c (List.mem_cons_self c rest)
    simp only [List.map_cons]
    rw [if_neg (by simp [hc] : ¬ ((c == ',') = true))]
    rw [ih fun d hd => h d (List.mem_cons_of_mem _ hd)]

/-- Upper-casing a list of characters below code point 97 does nothing. -/
theorem pyUpper_fixed (l : List Char) (h : ∀ c ∈ l, c.toNat < 97) : pyUpper l = l := by
  induction l with
  | nil => rfl
  | cons c rest ih =>
    simp only [pyUpper, List.map_cons]
    rw [pyUpperChar_fixed_of_lt97 c (h c (List.mem_cons_self c rest))]
    have := ih fun d hd => h d (List.mem_cons_of_mem _ hd)
    simp only [pyUpper] at this
    rw [this]

/-- Right-splitting at the only dot. -/
theorem rsplitDot_append (A B : List Char) (hB : ∀ c ∈ B, (c == '.') = false) :
    AmountNormalizer.rsplitDot (A ++ '.' :: B) = some (A, B) := by
  unfold AmountNormalizer.rsplitDot
  have hrev : (A ++ '.' :: B).reverse = B.reverse ++ '.' :: A.reverse := by
    simp [List.reverse_append]
  have hall : ∀ c ∈ B.reverse, (fun c => !(c == '.')) c = true := by
    intro c hc
    simp [hB c (List.mem_reverse.mp hc)]
  have hstop := takeWhile_append_stop (fun c => !(c == '.')) '.' A.reverse B.reverse hall
    (by decide)
  rw [hrev, hstop.1, hstop.2]
  simp

/-- Character classification of the rendering of a quantized amount: every
character sits between `-` (45) and `9` (57) and is not `/` (47). -/
theorem renderQuant_chars (neg : Bool) (cents : Nat) :
    ∀ c ∈ AmountNormalizer.renderQuant neg cents,
      45 ≤ c.toNat ∧ c.toNat ≤ 57 ∧ c.toNat ≠ 47 := by
  intro c hc
  simp only [AmountNormalizer.renderQuant, List.append_assoc, List.mem_append,
    List.mem_cons] at hc
  rcases hc with hc | hc | rfl | hc
  · rcases neg with _ | _
    · simp at hc
    · simp at hc; subst hc; decide
  · have := (isDigitC_iff c).mp (natToChars_all_digit _ c hc)
    omega
  · decide
  · have := (isDigitC_iff c).mp (pad2_all_digit _ c hc)
    omega

/-- The head part of a rendered quantized amount: the optional sign and the
integer digits, every character dot-free and space-free. -/
theorem renderQuant_head_chars (neg : Bool) (m : Nat) :
    ∀ c ∈ (if neg then ['-'] else []) ++ natToChars m,
      45 ≤ c.toNat ∧ c.toNat ≤ 57 ∧ c.toNat ≠ 46 := by
  intro c hc
  rcases List.mem_append.mp hc with hs | hn
  · rcases neg with _ | _
    · simp at hs
    · simp at hs; subst hs; decide
  · have := (isDigitC_iff c).mp (natToChars_all_digit _ c hn)
    omega

/-- The amount-string cleanup fixes every rendered quantized amount. -/
theorem cleanString_renderQuant (neg : Bool) (cents : Nat) :
    AmountNormalizer.cleanString (String.mk (AmountNormalizer.renderQuant neg cents)) =
      AmountNormalizer.renderQuant neg cents := by
  have hchars := renderQuant_chars neg cents
  have hsplit : AmountNormalizer.renderQuant neg cents =
      ((if neg then ['-'] else []) ++ natToChars (cents / 100)) ++ '.' ::
        pad2 (cents % 100) := by
    simp [AmountNormalizer.renderQuant, List.append_assoc]
  have hhead := renderQuant_head_chars neg (cents / 100)
  unfold AmountNormalizer.cleanString
  simp only [String.data]
  rw [pyUpper_fixed _ (fun c hc => by have := hchars c hc; omega)]
  rw [List.filter_eq_self.mpr (fun c hc => by
    have := hchars c hc
    simp [isCurrencyChar_false_of c (by omega) (by omega)])]
  rw [map_comma_id _ (fun c hc => by
    have := hchars c hc
    exact beq_eq_false_iff_ne.mpr fun he => absurd (he ▸ this.1) (by decide))]
  rw [hsplit, rsplitDot_append _ _ (fun c hc =>
    beq_eq_false_iff_ne.mpr fun he =>
      absurd (he ▸ (isDigitC_iff c).mp (pad2_all_digit _ c hc)) (by decide))]
  have hfilter : List.filter (fun c => !(c == '.' || pyIsSpace c))
      ((if neg then ['-'] else []) ++ natToChars (cents / 100)) =
      (if neg then ['-'] else []) ++ natToChars (cents / 100) :=
    List.filter_eq_self.mpr (fun c hc => by
      have := hhead c hc
      have hdot : (c == '.') = false :=
        beq_eq_false_iff_ne.mpr fun he => absurd (he ▸ this.2.2) (by decide)
      simp [hdot, pyIsSpace_false_mid c (by omega) (by omega)])
  show List.filter (fun c => !(c == '.' || pyIsSpace c))
      ((if neg then ['-'] else []) ++ natToChars (cents / 100)) ++ '.' :: pad2 (cents % 100) = _
  rw [hfilter]

end Docid

namespace Docid

/-- Underscore removal is the identity on underscore-free input. -/
theorem stripUnderscoresAux_no_underscore :
    ∀ l : List Char, (∀ c ∈ l, c ≠ '_') → ∀ prev,
      AmountNormalizer.stripUnderscoresAux prev l = some l := by
  intro l
  induction l with
  | nil => intro _ prev; rfl
  | cons c rest ih =>
    intro h prev
    unfold AmountNormalizer.stripUnderscoresAux
    rw [if_neg (h c (List.mem_cons_self c rest))]
    rw [ih (fun d hd => h d (List.mem_cons_of_mem _ hd)) (some c)]
    rfl

/-- Parsing a decimal literal of the shape `sign digits . digits`. -/
theorem parseDecimalCore_of_shape (sign : Bool) (I F : List Char) (hI : I ≠ [])
    (hdI : ∀ c ∈ I, isDigitC c = true) (hdF : ∀ c ∈ F, isDigitC c = true) :
    AmountNormalizer.parseDecimalCore ((if sign then ['-'] else []) ++ I ++ '.' :: F) =
      some (sign, charsVal (I ++ F), -(F.length : Int)) := by
  obtain ⟨d, ds, rfl⟩ := List.exists_cons_of_ne_nil hI
  have hd48 := (isDigitC_iff d).mp (hdI d (List.mem_cons_self d ds))
  have hstop := takeWhile_append_stop isDigitC '.' F (d :: ds) hdI (by decide)
  have hallF := takeWhile_all isDigitC F hdF
  have hsign : AmountNormalizer.parseSign ((if sign then ['-'] else []) ++ (d :: ds) ++ '.' :: F) =
      (sign, (d :: ds) ++ '.' :: F) := by
    rcases sign with _ | _
    · simp only [Bool.false_eq_true, if_false, List.nil_append, List.cons_append,
        AmountNormalizer.parseSign]
      rw [if_neg (fun he => absurd (he ▸ hd48.1) (by decide)),
        if_neg (fun he => absurd (he ▸ hd48.1) (by decide))]
    · simp [AmountNormalizer.parseSign]
  simp only [AmountNormalizer.parseDecimalCore, hsign]
  simp only [List.cons_append] at hstop
  simp only [List.cons_append, hstop.1, hstop.2, hallF.1, hallF.2, List.isEmpty_cons,
    Bool.false_and, Bool.false_eq_true, if_false]

/-- Parsing the rendering of a quantized amount recovers sign, cents and the
exponent -2. -/
theorem parseDecimal_renderQuant (neg : Bool) (cents : Nat) :
    AmountNormalizer.parseDecimal (AmountNormalizer.renderQuant neg cents) =
      some (neg, cents, -2) := by
  unfold AmountNormalizer.parseDecimal
  rw [stripUnderscoresAux_no_underscore _ (fun c hc he => by
    have := renderQuant_chars neg cents c hc
    exact absurd (he ▸ this.2.1) (by decide)) none]
  rw [Option.some_bind]
  have hshape : AmountNormalizer.renderQuant neg cents =
      (if neg then ['-'] else []) ++ natToChars (cents / 100) ++ '.' :: pad2 (cents % 100) :=
    rfl
  rw [hshape, parseDecimalCore_of_shape neg _ _ (natToChars_ne_nil _)
    (natToChars_all_digit _) (pad2_all_digit _)]
  rw [charsVal_append, charsVal_natToChars, charsVal_pad2 _ (Nat.mod_lt _ (by omega))]
  have h1 : cents / 100 * 10 ^ (pad2 (cents % 100)).length + cents % 100 = cents := by
    simp only [pad2, List.length_cons, List.length_nil]
    omega
  rw [h1]
  rfl

/-- Quantizing an exponent -2 value is the identity below the context
precision. -/
theorem quantizeHalfUp2_neg2 (neg : Bool) (cents : Nat) (h : cents < 10 ^ 28) :
    AmountNormalizer.quantizeHalfUp2? neg cents (-2) = some (neg, cents) := by
  unfold AmountNormalizer.quantizeHalfUp2?
  rw [if_pos (by decide : (0 : Int) ≤ -2 + 2)]
  norm_num
  intro hc
  exact absurd h (by omega)

/-- Quantization succeeds only below the context precision. -/
theorem quantizeHalfUp2_bound (neg : Bool) (c : Nat) (e : Int) (q : Bool × Nat)
    (h : AmountNormalizer.quantizeHalfUp2? neg c e = some q) :
    q.1 = neg ∧ q.2 < 10 ^ 28 := by
  unfold AmountNormalizer.quantizeHalfUp2? at h
  by_cases hb : (if 0 ≤ e + 2 then c * 10 ^ (e + 2).toNat
      else (2 * c + 10 ^ (-(e + 2)).toNat) / (2 * 10 ^ (-(e + 2)).toNat)) < 10 ^ 28
  · rw [if_pos hb] at h
    cases h
    exact ⟨rfl, hb⟩
  · rw [if_neg hb] at h
    cases h

/-- The string normalizer fixes every rendered quantized amount below the
context precision. -/
theorem normalizeStr_renderQuant (neg : Bool) (cents : Nat) (h : cents < 10 ^ 28) :
    AmountNormalizer.normalizeStr (String.mk (AmountNormalizer.renderQuant neg cents)) =
      String.mk (AmountNormalizer.renderQuant neg cents) := by
  unfold AmountNormalizer.normalizeStr
  rw [cleanString_renderQuant, parseDecimal_renderQuant, Option.some_bind]
  rw [quantizeHalfUp2_neg2 neg cents h]

/-- Every output of the amount normalizer is a rendered quantized amount
below the context precision. -/
theorem normalize?_shape (a : AmountValue) (o : String)
    (h : AmountNormalizer.normalize? a = some o) :
    ∃ neg cents, cents < 10 ^ 28 ∧ o = String.mk (AmountNormalizer.renderQuant neg cents) := by
  cases a with
  | numLit s =>
    simp only [AmountNormalizer.normalize?] at h
    cases hp : AmountNormalizer.parseDecimal s.data with
    | none => rw [hp] at h; simp at h
    | some p =>
      rw [hp, Option.some_bind] at h
      cases hq : AmountNormalizer.quantizeHalfUp2? p.1 p.2.1 p.2.2 with
      | none => rw [hq] at h; simp at h
      | some q =>
        rw [hq] at h
        simp at h
        obtain ⟨_, hb⟩ := quantizeHalfUp2_bound _ _ _ _ hq
        exact ⟨q.1, q.2, hb, h.symm⟩
  | strVal s =>
    simp only [AmountNormalizer.normalize?, Option.some.injEq] at h
    subst h
    unfold AmountNormalizer.normalizeStr
    cases hq : (AmountNormalizer.parseDecimal (AmountNormalizer.cleanString s)).bind
        (fun p => AmountNormalizer.quantizeHalfUp2? p.1 p.2.1 p.2.2) with
    | none =>
      refine ⟨false, 0, by norm_num, ?_⟩
      decide
    | some q =>
      cases hp : AmountNormalizer.parseDecimal (AmountNormalizer.cleanString s) with
      | none => rw [hp] at hq; simp at hq
      | some p =>
        rw [hp, Option.some_bind] at hq
        obtain ⟨_, hb⟩ := quantizeHalfUp2_bound _ _ _ _ hq
        exact ⟨q.1, q.2, hb, rfl⟩

end Docid

namespace Docid

/-- Characters produced by the separator substitution: slashes or non-separator
input characters. -/
theorem subSepRuns_chars :
    ∀ (l : List Char) (b : Bool) (c : Char), c ∈ InvoiceNumberNormalizer.subSepRuns l b →
      c = '/' ∨ (c ∈ l ∧ InvoiceNumberNormalizer.isSepChar c = false) := by
  intro l
  induction l with
  | nil => intro b c hc; simp [InvoiceNumberNormalizer.subSepRuns] at hc
  | cons x rest ih =>
    intro b c hc
    unfold InvoiceNumberNormalizer.subSepRuns at hc
    by_cases hx : InvoiceNumberNormalizer.isSepChar x = true
    · rw [if_pos hx] at hc
      rcases b with _ | _
      · simp only [Bool.false_eq_true, if_false] at hc
        rcases List.mem_cons.mp hc with rfl | hc
        · exact Or.inl rfl
        · rcases ih true c hc with h | ⟨h1, h2⟩
          · exact Or.inl h
          · exact Or.inr ⟨List.mem_cons_of_mem _ h1, h2⟩
      · simp only [if_true] at hc
        rcases ih true c hc with h | ⟨h1, h2⟩
        · exact Or.inl h
        · exact Or.inr ⟨List.mem_cons_of_mem _ h1, h2⟩
    · rw [if_neg hx] at hc
      rcases List.mem_cons.mp hc with rfl | hc
      · exact Or.inr ⟨List.mem_cons_self _ _, by simpa using hx⟩
      · rcases ih false c hc with h | ⟨h1, h2⟩
        · exact Or.inl h
        · exact Or.inr ⟨List.mem_cons_of_mem _ h1, h2⟩

/-- The slash collapse only keeps input characters. -/
theorem subSlashRuns_sub :
    ∀ (l : List Char) (b : Bool) (c : Char), c ∈ InvoiceNumberNormalizer.subSlashRuns l b →
      c ∈ l := by
  intro l
  induction l with
  | nil => intro b c hc; simp [InvoiceNumberNormalizer.subSlashRuns] at hc
  | cons x rest ih =>
    intro b c hc
    unfold InvoiceNumberNormalizer.subSlashRuns at hc
    by_cases hx : x = '/'
    · rw [if_pos hx] at hc
      rcases b with _ | _
      · simp only [Bool.false_eq_true, if_false] at hc
        rcases List.mem_cons.mp hc with rfl | hc
        · exact hx ▸ List.mem_cons_self _ _
        · exact List.mem_cons_of_mem _ (ih true c hc)
      · simp only [if_true] at hc
        exact List.mem_cons_of_mem _ (ih true c hc)
    · rw [if_neg hx] at hc
      rcases List.mem_cons.mp hc with rfl | hc
      · exact List.mem_cons_self _ _
      · exact List.mem_cons_of_mem _ (ih false c hc)

/-- The separator substitution is the identity on separator-free input. -/
theorem subSepRuns_id (l : List Char) (h : ∀ c ∈ l, InvoiceNumberNormalizer.isSepChar c = false) :
    ∀ b, InvoiceNumberNormalizer.subSepRuns l b = l := by
  induction l with
  | nil => intro b; rfl
  | cons x rest ih =>
    intro b
    unfold InvoiceNumberNormalizer.subSepRuns
    rw [if_neg (by simp [h x (List.mem_cons_self x rest)])]
    rw [ih (fun c hc => h c (List.mem_cons_of_mem _ hc)) false]

/-- The slash collapse leaves no adjacent double slash, and in the suppressing
state it cannot emit a leading slash. -/
theorem subSlashRuns_chain :
    ∀ (l : List Char) (b : Bool), List.Chain' noDS (InvoiceNumberNormalizer.subSlashRuns l b) ∧
      (b = true → (InvoiceNumberNormalizer.subSlashRuns l b).head? ≠ some '/') := by
  intro l
  induction l with
  | nil =>
    intro b
    exact ⟨by simp [InvoiceNumberNormalizer.subSlashRuns],
      by simp [InvoiceNumberNormalizer.subSlashRuns]⟩
  | cons x rest ih =>
    intro b
    unfold InvoiceNumberNormalizer.subSlashRuns
    by_cases hx : x = '/'
    · rw [if_pos hx]
      rcases b with _ | _
      · simp only [Bool.false_eq_true, if_false]
        refine ⟨?_, fun hc => by cases hc⟩
        rw [List.chain'_cons']
        refine ⟨?_, (ih true).1⟩
        intro y hy hcon
        exact (ih true).2 rfl (by rw [hy, hcon.2])
      · simp only [if_true]
        exact ⟨(ih true).1, fun _ => (ih true).2 rfl⟩
    · rw [if_neg hx]
      constructor
      · rw [List.chain'_cons']
        refine ⟨fun y _ hcon => hx hcon.1, (ih false).1⟩
      · intro _
        rw [List.head?_cons]
        exact fun hc => hx (Option.some.inj hc)

/-- The slash collapse is the identity when no double slash is present (and,
in the suppressing state, the head is not a slash). -/
theorem subSlashRuns_id :
    ∀ (l : List Char) (b : Bool), List.Chain' noDS l →
      (b = true → l.head? ≠ some '/') → InvoiceNumberNormalizer.subSlashRuns l b = l := by
  intro l
  induction l with
  | nil => intro b _ _; rfl
  | cons x rest ih =>
    intro b hchain hhead
    unfold InvoiceNumberNormalizer.subSlashRuns
    obtain ⟨hx1, hx2⟩ := List.chain'_cons'.mp hchain
    by_cases hx : x = '/'
    · rw [if_pos hx]
      rcases b with _ | _
      · simp only [Bool.false_eq_true, if_false]
        rw [ih true hx2 (fun _ hcon => hx1 '/' hcon ⟨hx, rfl⟩), hx]
      · exact absurd (show (x :: rest).head? = some '/' by rw [List.head?_cons, hx])
          (hhead rfl)
    · rw [if_neg hx]
      rw [ih false hx2 (fun hc => by cases hc)]

end Docid

namespace Docid

/-- Mapping a pointwise-fixing function is the identity. -/
theorem map_fix (f : Char → Char) (l : List Char) (h : ∀ c ∈ l, f c = c) : l.map f = l := by
  induction l with
  | nil => rfl
  | cons c rest ih =>
    rw [List.map_cons, h c (List.mem_cons_self c rest),
      ih fun d hd => h d (List.mem_cons_of_mem _ hd)]

/-- dropWhile does nothing when every element fails the predicate. -/
theorem dropWhile_id_of_all (p : Char → Bool) (l : List Char) (h : ∀ c ∈ l, p c = false) :
    l.dropWhile p = l := by
  cases l with
  | nil => rfl
  | cons c rest => simp [List.dropWhile_cons, h c (List.mem_cons_self c rest)]

/-- Stripping whitespace does nothing to a whitespace-free list. -/
theorem pyStrip_id (l : List Char) (h : ∀ c ∈ l, pyIsSpace c = false) : pyStrip l = l := by
  unfold pyStrip
  rw [dropWhile_id_of_all _ _ h,
    dropWhile_id_of_all _ _ (fun c hc => h c (List.mem_reverse.mp hc)), List.reverse_reverse]

/-- The head of a dropWhile result fails the predicate. -/
theorem head?_dropWhile_false (p : Char → Bool) :
    ∀ (l : List Char) (c : Char), (l.dropWhile p).head? = some c → p c = false := by
  intro l
  induction l with
  | nil => intro c hc; cases hc
  | cons x rest ih =>
    intro c hc
    rw [List.dropWhile_cons] at hc
    by_cases hx : p x = true
    · rw [if_pos hx] at hc
      exact ih c hc
    · rw [if_neg hx] at hc
      rw [← Option.some.inj hc]
      exact Bool.eq_false_iff.mpr hx

/-- Characters of the slash-stripped list come from the input. -/
theorem stripSlashes_sub (l : List Char) :
    ∀ c ∈ InvoiceNumberNormalizer.stripSlashes l, c ∈ l := by
  intro c hc
  unfold InvoiceNumberNormalizer.stripSlashes at hc
  have h1 := List.mem_reverse.mp hc
  have h2 := (List.dropWhile_sublist _).mem h1
  have h3 := List.mem_reverse.mp h2
  exact (List.dropWhile_sublist _).mem h3

/-- A nonempty suffix shares its last element with the full list. -/
theorem getLast?_of_suffix (l2 l : List Char) (h : l2 <:+ l) (hne : l2 ≠ []) :
    l2.getLast? = l.getLast? := by
  obtain ⟨pre, rfl⟩ := h
  rw [List.getLast?_append_of_ne_nil pre hne]

/-- The last character of the slash-stripped list is not a slash. -/
theorem stripSlashes_last (l : List Char) (c : Char)
    (h : (InvoiceNumberNormalizer.stripSlashes l).reverse.head? = some c) :
    (c == '/') = false := by
  unfold InvoiceNumberNormalizer.stripSlashes at h
  rw [List.reverse_reverse] at h
  exact head?_dropWhile_false (fun x => x == '/') _ _ h

/-- The first character of the slash-stripped list is not a slash. -/
theorem stripSlashes_head (l : List Char) (c : Char)
    (h : (InvoiceNumberNormalizer.stripSlashes l).head? = some c) :
    (c == '/') = false := by
  unfold InvoiceNumberNormalizer.stripSlashes at h
  rw [List.head?_reverse] at h
  have hne : (((l.dropWhile (· == '/')).reverse).dropWhile (· == '/')) ≠ [] := by
    intro he
    rw [he] at h
    cases h
  rw [getLast?_of_suffix _ _ (List.dropWhile_suffix _) hne] at h
  rw [List.getLast?_reverse] at h
  exact head?_dropWhile_false (fun x => x == '/') _ _ h

/-- dropWhile preserves the double-slash-freedom chain. -/
theorem chain'_dropWhile (p : Char → Bool) :
    ∀ l : List Char, List.Chain' noDS l → List.Chain' noDS (l.dropWhile p) := by
  intro l
  induction l with
  | nil => intro _; simp
  | cons x rest ih =>
    intro h
    rw [List.dropWhile_cons]
    by_cases hx : p x = true
    · rw [if_pos hx]
      exact ih (List.chain'_cons'.mp h).2
    · rw [if_neg hx]
      exact h

/-- Reversal preserves the double-slash-freedom chain. -/
theorem chain'_reverse_noDS (l : List Char) (h : List.Chain' noDS l) :
    List.Chain' noDS l.reverse := by
  rw [List.chain'_reverse]
  exact h.imp fun a b hab => fun hc => hab ⟨hc.2, hc.1⟩

/-- Slash-stripping preserves the double-slash-freedom chain. -/
theorem stripSlashes_chain (l : List Char) (h : List.Chain' noDS l) :
    List.Chain' noDS (InvoiceNumberNormalizer.stripSlashes l) := by
  unfold InvoiceNumberNormalizer.stripSlashes
  exact chain'_reverse_noDS _ (chain'_dropWhile _ _ (chain'_reverse_noDS _ (chain'_dropWhile _ _ h)))

/-- Slash-stripping does nothing when neither end is a slash. -/
theorem stripSlashes_id (l : List Char)
    (h1 : ∀ c, l.head? = some c → (c == '/') = false)
    (h2 : ∀ c, l.getLast? = some c → (c == '/') = false) :
    InvoiceNumberNormalizer.stripSlashes l = l := by
  unfold InvoiceNumberNormalizer.stripSlashes
  have hd : l.dropWhile (· == '/') = l := by
    cases l with
    | nil => rfl
    | cons x rest => simp [List.dropWhile_cons, h1 x rfl]
  rw [hd]
  have hd2 : l.reverse.dropWhile (· == '/') = l.reverse := by
    cases hr : l.reverse with
    | nil => rfl
    | cons x rest =>
      have : l.getLast? = some x := by
        rw [← List.head?_reverse, hr, List.head?_cons]
      simp [List.dropWhile_cons, h2 x this]
  rw [hd2, List.reverse_reverse]

/-- The invoice-number normalizer is idempotent. -/
theorem invoiceNumber_normalize_idem (s : String) :
    InvoiceNumberNormalizer.normalize (InvoiceNumberNormalizer.normalize s) =
      InvoiceNumberNormalizer.normalize s := by
  by_cases hs : s = ""
  · subst hs; rfl
  · have ht : InvoiceNumberNormalizer.normalize s =
        String.mk (InvoiceNumberNormalizer.stripSlashes
          (InvoiceNumberNormalizer.subSlashRuns
            (InvoiceNumberNormalizer.subSepRuns (pyStrip (pyUpper s.data)) false) false)) := by
      unfold InvoiceNumberNormalizer.normalize
      rw [if_neg hs]
    set q := InvoiceNumberNormalizer.subSlashRuns
      (InvoiceNumberNormalizer.subSepRuns (pyStrip (pyUpper s.data)) false) false with hq
    set t := InvoiceNumberNormalizer.stripSlashes q with htq
    by_cases hte : String.mk t = ""
    · rw [ht, hte]
      rfl
    · rw [ht]
      unfold InvoiceNumberNormalizer.normalize
      rw [if_neg hte]
      have hmem : ∀ c ∈ t, c = '/' ∨ ∃ x, c = pyUpperChar x := by
        intro c hc
        have h1 := stripSlashes_sub q c hc
        have h2 := subSlashRuns_sub _ _ _ h1
        rcases subSepRuns_chars _ _ _ h2 with h | ⟨h3, _⟩
        · exact Or.inl h
        · have h4 : c ∈ pyUpper s.data := by
            have h5 := List.mem_reverse.mp h3
            have h6 := (List.dropWhile_sublist _).mem h5
            have h7 := List.mem_reverse.mp h6
            exact (List.dropWhile_sublist _).mem h7
          obtain ⟨x, _, rfl⟩ := List.mem_map.mp h4
          exact Or.inr ⟨x, rfl⟩
      have hnosep : ∀ c ∈ t, InvoiceNumberNormalizer.isSepChar c = false := by
        intro c hc
        have h1 := stripSlashes_sub q c hc
        have h2 := subSlashRuns_sub _ _ _ h1
        rcases subSepRuns_chars _ _ _ h2 with h | ⟨_, h3⟩
        · subst h; decide
        · exact h3
      have hfix : ∀ c ∈ t, pyUpperChar c = c := by
        intro c hc
        rcases hmem c hc with rfl | ⟨x, rfl⟩
        · exact pyUpperChar_fixed_of_lt97 _ (by decide)
        · exact pyUpperChar_idem x
      have hnospace : ∀ c ∈ t, pyIsSpace c = false := by
        intro c hc
        have := hnosep c hc
        unfold InvoiceNumberNormalizer.isSepChar at this
        exact (Bool.or_eq_false_iff.mp ((Bool.or_eq_false_iff.mp this).1)).1
      show String.mk (InvoiceNumberNormalizer.stripSlashes
        (InvoiceNumberNormalizer.subSlashRuns
          (InvoiceNumberNormalizer.subSepRuns (pyStrip (pyUpper t)) false) false)) = String.mk t
      rw [show pyUpper t = t from map_fix _ _ hfix]
      rw [pyStrip_id _ hnospace]
      rw [subSepRuns_id _ hnosep false]
      have hchain : List.Chain' noDS t :=
        stripSlashes_chain _ (subSlashRuns_chain _ false).1
      rw [subSlashRuns_id _ false hchain (fun hc => by cases hc)]
      rw [stripSlashes_id _ (stripSlashes_head q) (fun c hc =>
        stripSlashes_last q c (by rw [List.head?_reverse]; exact hc))]

end Docid

namespace Docid

/-- Claim C2 counterexample: neither `NIPValidator.normalize` (which strips a
fresh leading letter pair on each application) nor `DateNormalizer.normalize`
(whose strftime drops the leading zero of year 999) is idempotent. -/
theorem c2_counterexample :
    NIPValidator.normalize (NIPValidator.normalize "ABCD") ≠ NIPValidator.normalize "ABCD" ∧
    DateNormalizer.normalize (DateNormalizer.normalize "0999 01 15") ≠
      DateNormalizer.normalize "0999 01 15" :=
  ⟨by decide, by decide⟩

/-- Claim C2 amended: `InvoiceNumberNormalizer.normalize` is idempotent on
every input, and `AmountNormalizer.normalize` is idempotent wherever it is
defined (its output, fed back as a string, reproduces itself); the NIP and
date normalizers are not idempotent. -/
theorem c2_amended :
    (∀ s, InvoiceNumberNormalizer.normalize (InvoiceNumberNormalizer.normalize s) =
      InvoiceNumberNormalizer.normalize s) ∧
    (∀ (a : AmountValue) (o : String), AmountNormalizer.normalize? a = some o →
      AmountNormalizer.normalize? (AmountValue.strVal o) = some o) := by
  refine ⟨invoiceNumber_normalize_idem, ?_⟩
  intro a o h
  obtain ⟨neg, cents, hb, rfl⟩ := normalize?_shape a o h
  simp only [AmountNormalizer.normalize?, Option.some.injEq]
  exact normalizeStr_renderQuant neg cents hb

/-- Closed instantiation of `c2_amended`: the normalized amount of the string
"1" is a fixed point. -/
theorem c2_amended_witness :
    AmountNormalizer.normalize? (AmountValue.strVal "1.00") = some "1.00" :=
  c2_amended.2 (AmountValue.strVal "1") "1.00" (by decide)

/-- Claim C5 counterexample: on the float `0.125` the code rounds half away
from zero (`0.13`), not half to even (`0.12`) as the spec's banker's-rounding
wording requires. -/
theorem c5_counterexample :
    AmountNormalizer.normalize? (AmountValue.numLit "0.125") = some "0.13" ∧
    AmountNormalizer.normalizeSpecHalfEven? (AmountValue.numLit "0.125") = some "0.12" :=
  ⟨by decide, by decide⟩

/-- Rounding a natural number plus one half floors to that number. -/
theorem floor_add_half (n : Nat) : ⌊(n : ℚ) + 1 / 2⌋₊ = n := by
  rw [Nat.floor_eq_iff (by positivity)]
  constructor
  · linarith [le_refl (n : ℚ)]
  · linarith

/-- Claim C5 amended: the numeric branch quantizes with ROUND_HALF_UP — the
result coefficient in hundredths is `⌊100·value + 1/2⌋` (on the magnitude,
ties away from zero) — and the output is rendered as an optional minus sign,
a nonempty run of digits, a dot, and exactly two digits. -/
theorem c5_amended :
    (∀ (neg : Bool) (c : Nat) (e : Int) (q : Bool × Nat),
      AmountNormalizer.quantizeHalfUp2? neg c e = some q →
      q.1 = neg ∧ (q.2 : ℚ) = ⌊(c : ℚ) * (10 : ℚ) ^ e * 100 + 1 / 2⌋₊) ∧
    (∀ s o : String, AmountNormalizer.normalize? (AmountValue.numLit s) = some o →
      ∃ neg cents, cents < 10 ^ 28 ∧
        o = String.mk (AmountNormalizer.renderQuant neg cents)) ∧
    (∀ (neg : Bool) (cents : Nat), ∃ ds : List Char, ds ≠ [] ∧
      (∀ ch ∈ ds, isDigitC ch = true) ∧ (∀ ch ∈ pad2 (cents % 100), isDigitC ch = true) ∧
      AmountNormalizer.renderQuant neg cents =
        (if neg then ['-'] else []) ++ ds ++ '.' :: pad2 (cents % 100)) ∧
    (∀ s : String, AmountNormalizer.cleanString s = s.data →
      ∀ o, AmountNormalizer.normalize? (AmountValue.numLit s) = some o →
        AmountNormalizer.normalize? (AmountValue.strVal s) = some o) := by
  refine ⟨?_, fun s o h => normalize?_shape _ o h, ?_, ?_⟩
  · intro neg c e q h
    unfold AmountNormalizer.quantizeHalfUp2? at h
    by_cases hb : (if 0 ≤ e + 2 then c * 10 ^ (e + 2).toNat
        else (2 * c + 10 ^ (-(e + 2)).toNat) / (2 * 10 ^ (-(e + 2)).toNat)) < 10 ^ 28
    · rw [if_pos hb] at h
      cases h
      refine ⟨rfl, ?_⟩
      by_cases he : 0 ≤ e + 2
      · rw [if_pos he]
        have hval : (c : ℚ) * (10 : ℚ) ^ e * 100 = (c * 10 ^ (e + 2).toNat : Nat) := by
          push_cast
          rw [show ((10 : ℚ) ^ (e + 2).toNat = (10 : ℚ) ^ ((e + 2).toNat : Int)) from
            (zpow_natCast 10 (e + 2).toNat).symm]
          rw [Int.toNat_of_nonneg he]
          rw [show ((100 : ℚ) = (10 : ℚ) ^ (2 : Int)) from by norm_num]
          rw [mul_assoc, ← zpow_add₀ (by norm_num : (10 : ℚ) ≠ 0)]
        rw [hval, floor_add_half]
      · rw [if_neg he]
        set k := (-(e + 2)).toNat with hk
        have hek : e + 2 = -(k : Int) := by omega
        have hd0 : (0 : ℚ) < (10 : ℚ) ^ k := by positivity
        have hval : (c : ℚ) * (10 : ℚ) ^ e * 100 + 1 / 2 =
            ((2 * c + 10 ^ k : Nat) : ℚ) / ((2 * 10 ^ k : Nat) : ℚ) := by
          have h10 : (10 : ℚ) ^ e * 100 = ((10 : ℚ) ^ k)⁻¹ := by
            rw [show ((100 : ℚ) = (10 : ℚ) ^ (2 : Int)) from by norm_num]
            rw [← zpow_add₀ (by norm_num : (10 : ℚ) ≠ 0)]
            rw [show (e + 2 : Int) = -(k : Int) from hek]
            rw [zpow_neg, zpow_natCast]
          rw [mul_assoc, h10]
          push_cast
          field_simp
          ring
        rw [hval]
        rw [Nat.floor_div_nat, Nat.floor_natCast]
    · rw [if_neg hb] at h
      cases h
  · intro neg cents
    refine ⟨natToChars (cents / 100), natToChars_ne_nil _, natToChars_all_digit _,
      pad2_all_digit _, rfl⟩
  · intro s hclean o h
    simp only [AmountNormalizer.normalize?, Option.some.injEq] at h ⊢
    unfold AmountNormalizer.normalizeStr
    rw [hclean]
    cases hq : (AmountNormalizer.parseDecimal s.data).bind
        (fun p => AmountNormalizer.quantizeHalfUp2? p.1 p.2.1 p.2.2) with
    | none => rw [hq] at h; simp at h
    | some q =>
      rw [hq] at h
      simp at h
      exact h

end Docid

namespace Docid

/-- Closed instantiation of `c5_amended`: quantizing 0.125 gives 13
hundredths, the half-up rounding of 12.5. -/
theorem c5_amended_witness :
    ((false, 13) : Bool × Nat).1 = false ∧ (((false, 13) : Bool × Nat).2 : ℚ) =
      ⌊(125 : ℚ) * (10 : ℚ) ^ (-3 : Int) * 100 + 1 / 2⌋₊ :=
  c5_amended.1 false 125 (-3) (false, 13) (by decide)

/-- Association-list lookup distributes over append. -/
theorem lookup_append (c : String) :
    ∀ l1 l2 : List (String × String),
      List.lookup c (l1 ++ l2) = ((List.lookup c l1).orElse fun _ => List.lookup c l2) := by
  intro l1 l2
  induction l1 with
  | nil => simp [List.lookup]
  | cons kv rest ih =>
    rw [List.cons_append]
    by_cases hk : c == kv.1
    · simp [List.lookup, hk, Option.orElse]
    · simp only [List.lookup, hk, Option.orElse] at ih ⊢
      exact ih

/-- The final duplicate cache maps every canonical string to the identifier
of the first document in the trace that produced it (entries already in the
starting cache win and are never overwritten). -/
theorem runPipelineTrace_lookup (c : String) :
    ∀ (docs : List (String × String)) (cache : List (String × String)),
      List.lookup c (DocumentPipeline.runPipelineTrace cache docs).2 =
        ((List.lookup c cache).orElse fun _ => firstIdFor docs c) := by
  intro docs
  induction docs with
  | nil =>
    intro cache
    simp only [DocumentPipeline.runPipelineTrace, firstIdFor, List.find?_nil, Option.map_none]
    cases List.lookup c cache <;> rfl
  | cons d rest ih =>
    intro cache
    obtain ⟨did, canon⟩ := d
    simp only [DocumentPipeline.runPipelineTrace, DocumentPipeline.dupCheck]
    cases hl : List.lookup canon cache with
    | some ex =>
      simp only []
      rw [ih cache]
      by_cases hc : canon = c
      · subst hc
        rw [hl]
        rfl
      · have : ((did, canon).2 == c) = false := by simpa using hc
        simp [firstIdFor, List.find?_cons, this]
    | none =>
      simp only []
      rw [ih (cache ++ [(canon, did)])]
      rw [lookup_append]
      by_cases hc : canon = c
      · subst hc
        rw [hl]
        have h1 : List.lookup canon [(canon, did)] = some did := by
          simp [List.lookup]
        rw [h1]
        have h2 : firstIdFor ((did, canon) :: rest) canon = some did := by
          simp [firstIdFor, List.find?_cons]
        rw [h2]
        rfl
      · have hne : (c == canon) = false := by
          simpa using fun he => hc he.symm
        have h1 : List.lookup c [(canon, did)] = none := by
          simp [List.lookup, hne]
        rw [h1]
        have h2 : firstIdFor ((did, canon) :: rest) c = firstIdFor rest c := by
          simp only [firstIdFor, List.find?_cons]
          rw [show (((did, canon)).2 == c) = false from by simpa using hc]
        rw [h2]
        cases List.lookup c cache <;> rfl

/-- Every returned annotation carries the identifier the generator produced,
unchanged. -/
theorem runPipelineTrace_ids :
    ∀ (docs : List (String × String)) (cache : List (String × String)),
      ((DocumentPipeline.runPipelineTrace cache docs).1).map (fun r => r.document_id) =
        docs.map (fun p => p.1) := by
  intro docs
  induction docs with
  | nil => intro cache; rfl
  | cons d rest ih =>
    intro cache
    obtain ⟨did, canon⟩ := d
    simp only [DocumentPipeline.runPipelineTrace, DocumentPipeline.dupCheck]
    cases hl : List.lookup canon cache with
    | some ex => simp only [List.map_cons, ih]
    | none => simp only [List.map_cons, ih]

/-- Claim C9: the duplicate cache annotates without altering: a hit returns
`is_duplicate` with the first-recorded identifier and leaves the cache
unchanged; a miss inserts the new pair; after any trace the cache maps each
canonical string to the identifier of the first document that produced it;
and the returned `document_id` is never changed by duplicate detection. -/
theorem c9_duplicate_cache :
    (∀ (cache : List (String × String)) (did c ex : String),
      List.lookup c cache = some ex →
      DocumentPipeline.dupCheck cache did c =
        ({ is_duplicate := true, duplicate_of := some ex, document_id := did }, cache)) ∧
    (∀ (cache : List (String × String)) (did c : String),
      List.lookup c cache = none →
      DocumentPipeline.dupCheck cache did c =
        ({ is_duplicate := false, duplicate_of := none, document_id := did },
          cache ++ [(c, did)])) ∧
    (∀ (docs : List (String × String)) (c : String),
      List.lookup c (DocumentPipeline.runPipelineTrace [] docs).2 = firstIdFor docs c) ∧
    (∀ (docs cache : List (String × String)),
      ((DocumentPipeline.runPipelineTrace cache docs).1).map (fun r => r.document_id) =
        docs.map (fun p => p.1)) := by
  refine ⟨?_, ?_, ?_, runPipelineTrace_ids⟩
  · intro cache did c ex h
    unfold DocumentPipeline.dupCheck
    rw [h]
  · intro cache did c h
    unfold DocumentPipeline.dupCheck
    rw [h]
  · intro docs c
    rw [runPipelineTrace_lookup]
    rfl

/-- Closed instantiation of `c9_duplicate_cache`: a second document with the
canonical string "c" is annotated as a duplicate of the first identifier and
the cache is unchanged. -/
theorem c9_duplicate_cache_witness :
    DocumentPipeline.dupCheck [("c", "ID1")] "ID2" "c" =
      ({ is_duplicate := true, duplicate_of := some "ID1", document_id := "ID2" },
        [("c", "ID1")]) :=
  c9_duplicate_cache.1 [("c", "ID1")] "ID2" "c" "ID1" (by decide)

end Docid
